import Mathlib

/-!
# Verification of the study-guide generation pipeline

A shallow embedding, in Lean 4, of the core subsystems of the repository:
the lexical similarity index and alignment engine (`part_001`), the two
fragment chunkers (`src/lib/chunker.ts` and `part_003`), the LLM fallback
cascade (`part_006`), the explanation memoizer flows
(`src/ai/flows/talmud-ai-chatbot-explanation.ts`, both the legacy-cache
version and the structured "rabanout" version, and `part_005`), the
canonical-guide batch writer (`src/app/actions/study-guide.ts`), and the
Hebrew numeral conversions (`part_007`).

Conventions used throughout:
* JavaScript strings are modelled as Lean `String`/`List Char`; the
  JavaScript whitespace class `\s` is modelled by `Char.isWhitespace`
  (the texts handled by the system only contain ASCII whitespace).
* JavaScript `Set` objects are modelled as insertion-ordered duplicate-free
  lists (`dedupFirst`), which preserves both membership and iteration
  order of the source.
* JavaScript floating-point numbers are idealised as rationals `ℚ`; the
  similarity weights 0.7/0.3 and the thresholds 0.05/0.08/0.6 are exact
  in both models, so no behavioural difference is introduced for the
  properties proved here.
* The external LLM provider is an oracle parameter; the persistent store
  is explicit state (association lists keyed by document path).
-/

/-! ## Shared string and list utilities -/

/-- JS `Array.from(new Set(xs))`: deduplicate preserving first occurrence. -/
def dedupFirstAux (seen : List String) : List String → List String
  | [] => []
  | x :: xs =>
    if x ∈ seen then dedupFirstAux seen xs
    else x :: dedupFirstAux (x :: seen) xs

/-- JS `Set` built from a list, read back in insertion order. -/
def dedupFirst (xs : List String) : List String := dedupFirstAux [] xs

/-- `dedupeRefs` from `part_001` (lines 281-293): trim each ref, drop
empties and previously seen refs, keep first occurrences. -/
def dedupeRefsAux (seen : List String) : List String → List String
  | [] => []
  | r :: rs =>
    let clean := r.trim
    if clean = "" ∨ clean ∈ seen then dedupeRefsAux seen rs
    else clean :: dedupeRefsAux (clean :: seen) rs

def dedupeRefs (refs : List String) : List String := dedupeRefsAux [] refs

theorem dedupFirstAux_nodup (seen : List String) (xs : List String) :
    (dedupFirstAux seen xs).Nodup ∧ ∀ x ∈ dedupFirstAux seen xs, x ∉ seen := by
  induction xs generalizing seen with
  | nil => simp [dedupFirstAux]
  | cons x xs ih =>
    by_cases hx : x ∈ seen
    · simpa [dedupFirstAux, hx] using ih seen
    · have h2 := ih (x :: seen)
      simp only [dedupFirstAux, hx, if_false, List.nodup_cons]
      refine ⟨⟨fun hmem => ?_, h2.1⟩, ?_⟩
      · exact (h2.2 x hmem) (List.mem_cons_self x seen)
      · intro y hy
        rcases List.mem_cons.mp hy with rfl | hy'
        · exact hx
        · intro hseen
          exact (h2.2 y hy') (List.mem_cons_of_mem _ hseen)

theorem dedupFirst_nodup (xs : List String) : (dedupFirst xs).Nodup :=
  (dedupFirstAux_nodup [] xs).1

theorem dedupFirstAux_subset (seen : List String) (xs : List String) :
    ∀ x ∈ dedupFirstAux seen xs, x ∈ xs := by
  induction xs generalizing seen with
  | nil => simp [dedupFirstAux]
  | cons x xs ih =>
    by_cases hx : x ∈ seen
    · simp only [dedupFirstAux, hx, if_true]
      intro y hy
      exact List.mem_cons_of_mem _ (ih seen y hy)
    · simp only [dedupFirstAux, hx, if_false]
      intro y hy
      rcases List.mem_cons.mp hy with rfl | hy'
      · exact List.mem_cons_self _ _
      · exact List.mem_cons_of_mem _ (ih (x :: seen) y hy')

theorem dedupeRefsAux_nodup (seen : List String) (rs : List String) :
    (dedupeRefsAux seen rs).Nodup ∧ ∀ r ∈ dedupeRefsAux seen rs, r ∉ seen := by
  induction rs generalizing seen with
  | nil => simp [dedupeRefsAux]
  | cons r rs ih =>
    by_cases hr : r.trim = "" ∨ r.trim ∈ seen
    · simpa [dedupeRefsAux, hr] using ih seen
    · have h2 := ih (r.trim :: seen)
      simp only [dedupeRefsAux, hr, if_false, List.nodup_cons]
      refine ⟨⟨fun hmem => ?_, h2.1⟩, ?_⟩
      · exact (h2.2 _ hmem) (List.mem_cons_self _ _)
      · intro y hy
        rcases List.mem_cons.mp hy with rfl | hy'
        · exact fun hseen => hr (Or.inr hseen)
        · intro hseen
          exact (h2.2 y hy') (List.mem_cons_of_mem _ hseen)

theorem dedupeRefs_nodup (rs : List String) : (dedupeRefs rs).Nodup :=
  (dedupeRefsAux_nodup [] rs).1

theorem dedupeRefsAux_mem (seen : List String) (rs : List String) :
    ∀ r ∈ dedupeRefsAux seen rs, r ∈ rs.map String.trim ∧ r ≠ "" := by
  induction rs generalizing seen with
  | nil => simp [dedupeRefsAux]
  | cons r rs ih =>
    by_cases hr : r.trim = "" ∨ r.trim ∈ seen
    · simp only [dedupeRefsAux, hr, if_true]
      intro y hy
      obtain ⟨h1, h2⟩ := ih seen y hy
      exact ⟨by simp [List.mem_cons]; right; simpa using h1, h2⟩
    · simp only [dedupeRefsAux, hr, if_false]
      intro y hy
      rcases List.mem_cons.mp hy with rfl | hy'
      · refine ⟨by simp, ?_⟩
        intro h
        exact hr (Or.inl h)
      · obtain ⟨h1, h2⟩ := ih (r.trim :: seen) y hy'
        exact ⟨by simp [List.mem_cons]; right; simpa using h1, h2⟩

theorem dedupeRefsAux_length (seen : List String) (rs : List String) :
    (dedupeRefsAux seen rs).length ≤ rs.length := by
  induction rs generalizing seen with
  | nil => simp [dedupeRefsAux]
  | cons r rs ih =>
    by_cases hr : r.trim = "" ∨ r.trim ∈ seen
    · simp only [dedupeRefsAux, hr, if_true]
      exact Nat.le_succ_of_le (ih seen)
    · simp only [dedupeRefsAux, hr, if_false, List.length_cons]
      exact Nat.succ_le_succ (ih _)

theorem dedupeRefs_length (rs : List String) :
    (dedupeRefs rs).length ≤ rs.length := dedupeRefsAux_length [] rs

/-! ## Similarity index (`part_001`, lines 295-343)

`normalizeHebrewForSimilarity`, `tokenizeForSimilarity`, `buildBigramSet`,
`buildSimilarityIndex`, `overlapRatio` and `selectBestRefsBySimilarity`
translated from the source.  Token/bigram `Set`s are insertion-ordered
duplicate-free lists. -/

/-- Hebrew letter block `א`-`ת` (U+05D0..U+05EA), as used by the source's
character class. -/
def isHebrewLetter (c : Char) : Bool :=
  0x05D0 ≤ c.toNat && c.toNat ≤ 0x05EA

/-- Cantillation / point block U+0591..U+05C7 stripped by the source. -/
def isCantillation (c : Char) : Bool :=
  0x0591 ≤ c.toNat && c.toNat ≤ 0x05C7

/-- Quote-like marks `׳ ״ " ' \x60 ´` replaced by spaces. -/
def isQuoteLike (c : Char) : Bool :=
  c = '׳' || c = '״' || c = (Char.ofNat 34) || c = (Char.ofNat 39) ||
  c = (Char.ofNat 96) || c = '´'

/-- One step of the global replace of `<[^>]+>` by a space: given the
characters after a `<`, consume at least one non-`>` character and then a
`>`, returning the remainder on success. -/
def consumeTag : List Char → Option (List Char)
  | [] => none
  | c :: rest =>
    if c = '>' then none
    else
      let rec go : List Char → Option (List Char)
        | [] => none
        | d :: ds => if d = '>' then some ds else go ds
      go rest

/-- JS `text.replace(/<[^>]+>/g, ' ')`, fuelled by the input length. -/
def stripTagsGo : Nat → List Char → List Char
  | 0, _ => []
  | _ + 1, [] => []
  | fuel + 1, c :: rest =>
    if c = '<' then
      match consumeTag rest with
      | some rest' => ' ' :: stripTagsGo fuel rest'
      | none => c :: stripTagsGo fuel rest
    else c :: stripTagsGo fuel rest

def stripTags (cs : List Char) : List Char := stripTagsGo cs.length cs

/-- Collapse runs of whitespace to single spaces (JS `replace(/\s+/g, ' ')`). -/
def collapseWs : List Char → List Char
  | [] => []
  | c :: rest =>
    if c.isWhitespace then
      ' ' :: collapseWs (rest.dropWhile Char.isWhitespace)
    else c :: collapseWs rest
termination_by cs => cs.length
decreasing_by
  · simp only [List.length_cons]
    exact Nat.lt_succ_of_le ((List.dropWhile_sublist _).length_le)
  · simp

/-- `normalizeHebrewForSimilarity` from `part_001` lines 295-303. -/
def normalizeHebrewForSimilarity (text : String) : String :=
  let step1 := stripTags text.toList
  let step2 := step1.filter (fun c => !isCantillation c)
  let step3 := step2.map (fun c => if isQuoteLike c then ' ' else c)
  let step4 := step3.map (fun c =>
    if isHebrewLetter c || c.isAlpha && c.toNat < 128 || c.isDigit || c.isWhitespace
    then c else ' ')
  String.mk (collapseWs step4) |>.trim

/-- JS `split(/\s+/)` with empty fields dropped (the source filters short
tokens right after, so dropped empties are unobservable). -/
def jsWords (s : String) : List String :=
  ((s.toList.splitOnP Char.isWhitespace).filter (· ≠ [])).map String.mk

/-- `tokenizeForSimilarity` from `part_001` lines 305-312. -/
def tokenizeForSimilarity (text : String) : List String :=
  let normalized := normalizeHebrewForSimilarity text
  if normalized = "" then []
  else ((jsWords normalized).map String.trim).filter (fun t => 2 ≤ t.length)

/-- The adjacent-pair list underlying `buildBigramSet`. -/
def bigramList : List String → List String
  | a :: b :: rest => (a ++ " " ++ b) :: bigramList (b :: rest)
  | _ => []

/-- `buildBigramSet` from `part_001` lines 314-320 (a JS `Set`). -/
def buildBigramSet (tokens : List String) : List String :=
  dedupFirst (bigramList tokens)

structure PreparedSimilarityChunk where
  ref : String
  index : Nat
  tokens : List String
  bigrams : List String
  deriving Repr, DecidableEq

structure StructuredChunk where
  ref : String
  path : Option (List Nat)
  text : String
  deriving Repr, DecidableEq

/-- `buildSimilarityIndex` from `part_001` lines 322-334. -/
def buildSimilarityIndex (segments : List StructuredChunk) : List PreparedSimilarityChunk :=
  ((segments.enum.map (fun p =>
    let tokensArr := tokenizeForSimilarity p.2.text
    PreparedSimilarityChunk.mk p.2.ref p.1 (dedupFirst tokensArr) (buildBigramSet tokensArr)))).filter
    (fun item => item.tokens.length ≠ 0)

/-- `overlapRatio` from `part_001` lines 336-343.  The sets are
duplicate-free lists, so the iteration count is the intersection size. -/
def overlapRatio (querySet candidateSet : List String) : ℚ :=
  if querySet.length = 0 ∨ candidateSet.length = 0 then 0
  else ((querySet.filter (fun t => candidateSet.contains t)).length : ℚ) / querySet.length

/-- The candidate score computed inside `selectBestRefsBySimilarity`
(lines 357-367): `tokenScore * 0.7 + bigramScore * 0.3`. -/
def similarityScore (queryTokenSet queryBigramSet : List String)
    (c : PreparedSimilarityChunk) : ℚ :=
  overlapRatio queryTokenSet c.tokens * (7/10) + overlapRatio queryBigramSet c.bigrams * (3/10)

structure ScoredChunk where
  ref : String
  index : Nat
  score : ℚ
  deriving Repr, DecidableEq

structure SimilaritySelection where
  refs : List String
  bestScore : ℚ
  deriving Repr, DecidableEq

/-- The JS sort comparator `(a, b) => b.score - a.score || a.index - b.index`
as a boolean order: score descending, then upstream index ascending. -/
def scoreOrder (a b : ScoredChunk) : Bool :=
  decide (b.score < a.score) || (decide (a.score = b.score) && decide (a.index ≤ b.index))

/-- Index-ascending re-sort `(a, b) => a.index - b.index`. -/
def idxOrder (a b : ScoredChunk) : Bool := decide (a.index ≤ b.index)

/-- `queryTokenSet` local of `selectBestRefsBySimilarity` (line 351). -/
def queryTokenSetOf (queryText : String) : List String :=
  dedupFirst (tokenizeForSimilarity queryText)

/-- `queryBigramSet` local of `selectBestRefsBySimilarity` (line 352). -/
def queryBigramSetOf (queryText : String) : List String :=
  buildBigramSet (tokenizeForSimilarity queryText)

/-- `scored` local of `selectBestRefsBySimilarity` (lines 357-367). -/
def scoredOf (queryText : String) (candidates : List PreparedSimilarityChunk) :
    List ScoredChunk :=
  candidates.map (fun c =>
    ScoredChunk.mk c.ref c.index
      (similarityScore (queryTokenSetOf queryText) (queryBigramSetOf queryText) c))

/-- The `scored.sort(...)` result (line 369). -/
def sortedOf (queryText : String) (candidates : List PreparedSimilarityChunk) :
    List ScoredChunk :=
  (scoredOf queryText candidates).mergeSort scoreOrder

/-- `bestScore` local (line 370): `scored[0]?.score ?? 0` after sorting. -/
def bestScoreOf (queryText : String) (candidates : List PreparedSimilarityChunk) : ℚ :=
  (((sortedOf queryText candidates).head?).map ScoredChunk.score).getD 0

/-- `selected` local (lines 375-379): threshold filter, 12-item cap,
re-sort by upstream index. -/
def selectedOf (queryText : String) (candidates : List PreparedSimilarityChunk) :
    List ScoredChunk :=
  let minimumScore := max (2/25) (bestScoreOf queryText candidates * (3/5))
  (((sortedOf queryText candidates).filter
    (fun item => minimumScore ≤ item.score)).take 12).mergeSort idxOrder

/-- `selectBestRefsBySimilarity` from `part_001` lines 345-385. -/
def selectBestRefsBySimilarity (queryText : String)
    (candidates : List PreparedSimilarityChunk) : SimilaritySelection :=
  if queryText.trim = "" ∨ candidates = [] then ⟨[], 0⟩
  else if (queryTokenSetOf queryText).length = 0 then ⟨[], 0⟩
  else if bestScoreOf queryText candidates < 1/20 then ⟨[], bestScoreOf queryText candidates⟩
  else
    ⟨dedupeRefs ((selectedOf queryText candidates).map ScoredChunk.ref),
      bestScoreOf queryText candidates⟩

theorem scoreOrder_trans (a b c : ScoredChunk)
    (hab : scoreOrder a b = true) (hbc : scoreOrder b c = true) :
    scoreOrder a c = true := by
  simp only [scoreOrder, Bool.or_eq_true, Bool.and_eq_true, decide_eq_true_eq] at *
  rcases hab with h1 | ⟨h1, h1'⟩ <;> rcases hbc with h2 | ⟨h2, h2'⟩
  · exact Or.inl (h2.trans h1)
  · exact Or.inl (h2 ▸ h1)
  · exact Or.inl (h1 ▸ h2)
  · exact Or.inr ⟨h1.trans h2, h1'.trans h2'⟩

theorem scoreOrder_total (a b : ScoredChunk) :
    (scoreOrder a b || scoreOrder b a) = true := by
  simp only [scoreOrder, Bool.or_eq_true, Bool.and_eq_true, decide_eq_true_eq]
  rcases lt_trichotomy a.score b.score with h | h | h
  · exact Or.inr (Or.inl h)
  · rcases Nat.le_total a.index b.index with hi | hi
    · exact Or.inl (Or.inr ⟨h, hi⟩)
    · exact Or.inr (Or.inr ⟨h.symm, hi⟩)
  · exact Or.inl (Or.inl h)

theorem idxOrder_trans (a b c : ScoredChunk)
    (hab : idxOrder a b = true) (hbc : idxOrder b c = true) :
    idxOrder a c = true := by
  simp only [idxOrder, decide_eq_true_eq] at *
  exact hab.trans hbc

theorem idxOrder_total (a b : ScoredChunk) :
    (idxOrder a b || idxOrder b a) = true := by
  simp only [idxOrder, Bool.or_eq_true, decide_eq_true_eq]
  exact Nat.le_total a.index b.index

theorem overlapRatio_nonneg (q c : List String) : 0 ≤ overlapRatio q c := by
  unfold overlapRatio
  split
  · exact le_refl 0
  · positivity

/-- Monotonicity of `overlapRatio` in the candidate set. -/
theorem overlapRatio_mono (q a b : List String) (h : ∀ t ∈ b, t ∈ a) :
    overlapRatio q b ≤ overlapRatio q a := by
  by_cases hq : q.length = 0
  · simp [overlapRatio, hq]
  · by_cases hb : b.length = 0
    · have hzero : overlapRatio q b = 0 := by simp [overlapRatio, hb]
      rw [hzero]
      exact overlapRatio_nonneg q a
    · have hbne : b ≠ [] := fun hh => hb (by simp [hh])
      have hane : a.length ≠ 0 := by
        obtain ⟨x, hx⟩ := List.exists_mem_of_ne_nil b hbne
        have hxa : x ∈ a := h x hx
        intro hh
        rw [List.length_eq_zero] at hh
        simp [hh] at hxa
      unfold overlapRatio
      simp only [hq, hb, hane, or_self, false_or, if_false]
      apply div_le_div_of_nonneg_right _ (by positivity)
      have hcount : (q.filter (fun t => b.contains t)).length ≤
          (q.filter (fun t => a.contains t)).length := by
        rw [← List.countP_eq_length_filter, ← List.countP_eq_length_filter]
        apply List.countP_mono_left
        intro x _ hx
        rw [List.elem_iff] at hx ⊢
        exact h x hx
      exact_mod_cast hcount

/-- *Spec-side* definition, written from the claim's words for the
refinement comparison (not from the source): the weighted overlap score
`0.7·|Q.tokens ∩ C.tokens|/|Q.tokens| + 0.3·|Q.bigrams ∩ C.bigrams|/|Q.bigrams|`,
a term being 0 when its denominator is 0. -/
def specSimilarityScore (qTok qBig cTok cBig : Finset String) : ℚ :=
  (if qTok.card = 0 then 0 else (7/10) * ((qTok ∩ cTok).card : ℚ) / qTok.card) +
  (if qBig.card = 0 then 0 else (3/10) * ((qBig ∩ cBig).card : ℚ) / qBig.card)

theorem overlapRatio_eq_spec (q c : List String) (hq : q.Nodup) :
    overlapRatio q c =
      if q.toFinset.card = 0 then 0
      else ((q.toFinset ∩ c.toFinset).card : ℚ) / q.toFinset.card := by
  have hcard : q.toFinset.card = q.length := List.toFinset_card_of_nodup hq
  by_cases hql : q.length = 0
  · simp [overlapRatio, hql, hcard]
  · have hqf : q.toFinset.card ≠ 0 := by rw [hcard]; exact hql
    by_cases hcl : c.length = 0
    · have hc : c = [] := List.length_eq_zero.mp hcl
      simp [overlapRatio, hql, hcl, hqf, hc]
    · have hfilter : (q.filter (fun t => c.contains t)).length =
          (q.toFinset ∩ c.toFinset).card := by
        have h1 : (q.filter (fun t => c.contains t)).toFinset =
            q.toFinset.filter (fun t => t ∈ c.toFinset) := by
          rw [List.toFinset_filter]
          apply Finset.filter_congr
          intro x _
          simp [List.elem_iff]
        have h2 : (q.filter (fun t => c.contains t)).toFinset.card =
            (q.filter (fun t => c.contains t)).length :=
          List.toFinset_card_of_nodup (hq.filter _)
        rw [← h2, h1, Finset.filter_mem_eq_inter]
      simp only [overlapRatio, hql, hcl, or_self, if_false, hqf, hfilter, hcard]

/-- The code-side score agrees with the spec-side formula whenever the
query token/bigram sets are duplicate-free (they are `Set`s in the source). -/
theorem similarityScore_eq_spec (qTok qBig : List String)
    (c : PreparedSimilarityChunk) (hT : qTok.Nodup) (hB : qBig.Nodup) :
    similarityScore qTok qBig c =
      specSimilarityScore qTok.toFinset qBig.toFinset c.tokens.toFinset c.bigrams.toFinset := by
  unfold similarityScore specSimilarityScore
  rw [overlapRatio_eq_spec _ _ hT, overlapRatio_eq_spec _ _ hB]
  by_cases h1 : qTok.toFinset.card = 0 <;> by_cases h2 : qBig.toFinset.card = 0 <;>
    simp [h1, h2] <;> ring

/-- Claim C7: similarity monotonicity.  For every query (token and bigram
sets) and every pair of candidates `a` and `b`, if `a`'s token set contains
`b`'s token set and `a`'s bigram set contains `b`'s bigram set, then `a`'s
similarity score against the query, as computed inside
`selectBestRefsBySimilarity`, is at least `b`'s. -/
theorem C7_similarity_superset_monotone (queryTokenSet queryBigramSet : List String)
    (a b : PreparedSimilarityChunk)
    (hT : ∀ t ∈ b.tokens, t ∈ a.tokens) (hB : ∀ g ∈ b.bigrams, g ∈ a.bigrams) :
    similarityScore queryTokenSet queryBigramSet b ≤
      similarityScore queryTokenSet queryBigramSet a := by
  unfold similarityScore
  have h1 := overlapRatio_mono queryTokenSet a.tokens b.tokens hT
  have h2 := overlapRatio_mono queryBigramSet a.bigrams b.bigrams hB
  have w1 : (0:ℚ) ≤ 7/10 := by norm_num
  have w2 : (0:ℚ) ≤ 3/10 := by norm_num
  exact add_le_add (mul_le_mul_of_nonneg_right h1 w1) (mul_le_mul_of_nonneg_right h2 w2)

/-- Witness for C7 at a concrete query and pair of candidates. -/
theorem C7_similarity_superset_monotone_witness :
    similarityScore ["ab", "cd"] ["ab cd"] ⟨"b", 1, ["ab"], []⟩ ≤
      similarityScore ["ab", "cd"] ["ab cd"] ⟨"a", 0, ["ab", "cd"], ["ab cd"]⟩ :=
  C7_similarity_superset_monotone ["ab", "cd"] ["ab cd"]
    ⟨"a", 0, ["ab", "cd"], ["ab cd"]⟩ ⟨"b", 1, ["ab"], []⟩
    (by decide) (by decide)

theorem scoreOrder_score_le (a b : ScoredChunk) (h : scoreOrder a b = true) :
    b.score ≤ a.score := by
  simp only [scoreOrder, Bool.or_eq_true, Bool.and_eq_true, decide_eq_true_eq] at h
  rcases h with h | ⟨h, _⟩
  · exact le_of_lt h
  · exact le_of_eq h.symm

/-- The `bestScore` computed by the selection bounds every candidate's score. -/
theorem bestScoreOf_le (q : String) (cs : List PreparedSimilarityChunk) :
    ∀ c ∈ cs, similarityScore (queryTokenSetOf q) (queryBigramSetOf q) c ≤ bestScoreOf q cs := by
  intro c hc
  have hmem : ScoredChunk.mk c.ref c.index
      (similarityScore (queryTokenSetOf q) (queryBigramSetOf q) c) ∈ scoredOf q cs :=
    List.mem_map_of_mem _ hc
  have hsmem : ScoredChunk.mk c.ref c.index
      (similarityScore (queryTokenSetOf q) (queryBigramSetOf q) c) ∈ sortedOf q cs :=
    ((List.mergeSort_perm (scoredOf q cs) scoreOrder).mem_iff).mpr hmem
  cases hcons : sortedOf q cs with
  | nil =>
    rw [hcons] at hsmem
    cases hsmem
  | cons hd tl =>
    have hbest : bestScoreOf q cs = hd.score := by
      unfold bestScoreOf
      rw [hcons]
      rfl
    have hpw := List.sorted_mergeSort scoreOrder_trans scoreOrder_total (scoredOf q cs)
    rw [show (scoredOf q cs).mergeSort scoreOrder = sortedOf q cs from rfl, hcons,
      List.pairwise_cons] at hpw
    rw [hcons] at hsmem
    rcases List.mem_cons.mp hsmem with heq | htl
    · rw [hbest, ← heq]
    · rw [hbest]
      exact scoreOrder_score_le hd _ (hpw.1 _ htl)

theorem selectedOf_sorted (q : String) (cs : List PreparedSimilarityChunk) :
    List.Sorted (fun a b : ScoredChunk => a.index ≤ b.index) (selectedOf q cs) := by
  have hp := List.sorted_mergeSort idxOrder_trans idxOrder_total
    (((sortedOf q cs).filter
      (fun item => max (2/25) (bestScoreOf q cs * (3/5)) ≤ item.score)).take 12)
  exact hp.imp (fun h => by simpa [idxOrder] using h)

theorem selectedOf_length (q : String) (cs : List PreparedSimilarityChunk) :
    (selectedOf q cs).length ≤ 12 := by
  unfold selectedOf
  rw [(List.mergeSort_perm _ _).length_eq, List.length_take]
  exact min_le_left _ _

theorem selectedOf_mem (q : String) (cs : List PreparedSimilarityChunk) :
    ∀ s ∈ selectedOf q cs,
      s ∈ scoredOf q cs ∧ max (2/25) (bestScoreOf q cs * (3/5)) ≤ s.score := by
  intro s hs
  unfold selectedOf at hs
  rw [(List.mergeSort_perm _ _).mem_iff] at hs
  have hs2 := List.take_subset _ _ hs
  rw [List.mem_filter] at hs2
  refine ⟨((List.mergeSort_perm (scoredOf q cs) scoreOrder).mem_iff).mp hs2.1, ?_⟩
  simpa using hs2.2

/-- Claim C6: similarity scoring and selection.  For every query text and
candidate list: (i) each candidate's score, as computed inside
`selectBestRefsBySimilarity`, equals the weighted-overlap formula
`0.7·|Q.tokens ∩ C.tokens|/|Q.tokens| + 0.3·|Q.bigrams ∩ C.bigrams|/|Q.bigrams|`
with a term taken as 0 when its denominator is 0; (ii) the computed best
score bounds every candidate's score; (iii) the selection returns the
empty list whenever the best score is below 0.05; (iv) at most 12 refs
are returned, (v) with duplicates removed, and (vi) the returned refs are
the (trimmed, first-occurrence-deduplicated) refs of a list of scored
candidates ordered by upstream index whose scores reach the threshold
`max(0.08, 0.6·best)`. -/
theorem C6_selectBestRefs_spec (queryText : String)
    (candidates : List PreparedSimilarityChunk) :
    (∀ c ∈ candidates,
        similarityScore (queryTokenSetOf queryText) (queryBigramSetOf queryText) c =
          specSimilarityScore (queryTokenSetOf queryText).toFinset
            (queryBigramSetOf queryText).toFinset c.tokens.toFinset c.bigrams.toFinset) ∧
    (∀ c ∈ candidates,
        similarityScore (queryTokenSetOf queryText) (queryBigramSetOf queryText) c ≤
          bestScoreOf queryText candidates) ∧
    (bestScoreOf queryText candidates < 1/20 →
        (selectBestRefsBySimilarity queryText candidates).refs = []) ∧
    (selectBestRefsBySimilarity queryText candidates).refs.length ≤ 12 ∧
    (selectBestRefsBySimilarity queryText candidates).refs.Nodup ∧
    ∃ chosen : List ScoredChunk,
      List.Sorted (fun a b : ScoredChunk => a.index ≤ b.index) chosen ∧
      (selectBestRefsBySimilarity queryText candidates).refs =
        dedupeRefs (chosen.map ScoredChunk.ref) ∧
      ∀ s ∈ chosen, ∃ c ∈ candidates, s.ref = c.ref ∧ s.index = c.index ∧
        s.score = similarityScore (queryTokenSetOf queryText) (queryBigramSetOf queryText) c ∧
        max (2/25) (bestScoreOf queryText candidates * (3/5)) ≤ s.score := by
  refine ⟨?_, bestScoreOf_le queryText candidates, ?_, ?_, ?_, ?_⟩
  · intro c hc
    have hT : (queryTokenSetOf queryText).Nodup := dedupFirst_nodup _
    have hB : (queryBigramSetOf queryText).Nodup := dedupFirst_nodup _
    exact similarityScore_eq_spec _ _ c hT hB
  · intro hlt
    unfold selectBestRefsBySimilarity
    split_ifs <;> rfl
  · unfold selectBestRefsBySimilarity
    split_ifs with h1 h2 h3
    · simp
    · simp
    · simp
    · calc (dedupeRefs ((selectedOf queryText candidates).map ScoredChunk.ref)).length
          ≤ ((selectedOf queryText candidates).map ScoredChunk.ref).length :=
            dedupeRefs_length _
        _ = (selectedOf queryText candidates).length := List.length_map _ _
        _ ≤ 12 := selectedOf_length queryText candidates
  · unfold selectBestRefsBySimilarity
    split_ifs with h1 h2 h3
    · exact List.nodup_nil
    · exact List.nodup_nil
    · exact List.nodup_nil
    · exact dedupeRefs_nodup _
  · unfold selectBestRefsBySimilarity
    split_ifs with h1 h2 h3
    · exact ⟨[], List.sorted_nil, rfl, by simp⟩
    · exact ⟨[], List.sorted_nil, rfl, by simp⟩
    · exact ⟨[], List.sorted_nil, rfl, by simp⟩
    · refine ⟨selectedOf queryText candidates, selectedOf_sorted queryText candidates, rfl, ?_⟩
      intro s hs
      obtain ⟨hmem, hscore⟩ := selectedOf_mem queryText candidates s hs
      unfold scoredOf at hmem
      rw [List.mem_map] at hmem
      obtain ⟨c, hc, hceq⟩ := hmem
      exact ⟨c, hc, by rw [← hceq], by rw [← hceq], by rw [← hceq], hscore⟩

/-! ## Alignment engine per-paragraph mapping (`part_001`, lines 161-206)

The loop body of `buildSimanAlignmentJob` computing one `SeifRefMapping`.
The provider's link endpoint result is a parameter (two ref lists; the
`catch` branch of the source leaves both empty, which is the `([], [])`
instance).  The endpoint itself (`getLinkedSourcesForShulchanArukhSeif`,
`part_007` lines 1061-1104) trims every collected ref and drops empties,
which the bridging conjunct of the claim theorem uses. -/

structure SeifRefMapping where
  turRefs : List String
  byRefs : List String
  turMode : String
  byMode : String
  confidence : ℚ
  deriving Repr, DecidableEq

/-- JS `Number(x.toFixed(3))`: round to three decimals. -/
def round3 (x : ℚ) : ℚ := (round (x * 1000) : ℚ) / 1000

/-- One corpus arm of the loop body (lines 179-197): linked refs win with
score 1; otherwise the similarity fallback supplies refs, mode and score. -/
def seifSelection (linkedRefs : List String) (entryText : String)
    (index : List PreparedSimilarityChunk) : List String × String × ℚ :=
  let deduped := dedupeRefs linkedRefs
  if deduped ≠ [] then (deduped, "linked-passages", 1)
  else
    let fallback := selectBestRefsBySimilarity entryText index
    (fallback.refs,
      if fallback.refs ≠ [] then "fallback-similarity" else "none",
      fallback.bestScore)

/-- The per-seif record built by `buildSimanAlignmentJob` (lines 163-205). -/
def buildSeifMapping (linkedTurRefs linkedByRefs : List String) (entryText : String)
    (turIndex byIndex : List PreparedSimilarityChunk) : SeifRefMapping :=
  let tur := seifSelection linkedTurRefs entryText turIndex
  let bySel := seifSelection linkedByRefs entryText byIndex
  ⟨tur.1, bySel.1, tur.2.1, bySel.2.1, round3 ((tur.2.2 + bySel.2.2) / 2)⟩

theorem dedupeRefs_ne_nil_of_clean (rs : List String)
    (h : ∀ r ∈ rs, r.trim = r ∧ r ≠ "") (hne : rs ≠ []) : dedupeRefs rs ≠ [] := by
  cases rs with
  | nil => exact absurd rfl hne
  | cons r rs' =>
    obtain ⟨htrim, hempty⟩ := h r (List.mem_cons_self _ _)
    unfold dedupeRefs dedupeRefsAux
    have hcond : ¬(r.trim = "" ∨ r.trim ∈ ([] : List String)) := by
      rw [htrim]
      simp [hempty]
    simp only [hcond, if_false]
    exact List.cons_ne_nil _ _

theorem seifSelection_pos (linkedRefs : List String) (entryText : String)
    (index : List PreparedSimilarityChunk) (h : dedupeRefs linkedRefs ≠ []) :
    seifSelection linkedRefs entryText index =
      (dedupeRefs linkedRefs, "linked-passages", 1) := by
  unfold seifSelection
  rw [if_pos h]

theorem seifSelection_neg (linkedRefs : List String) (entryText : String)
    (index : List PreparedSimilarityChunk) (h : dedupeRefs linkedRefs = []) :
    seifSelection linkedRefs entryText index =
      ((selectBestRefsBySimilarity entryText index).refs,
        (if (selectBestRefsBySimilarity entryText index).refs ≠ []
          then "fallback-similarity" else "none"),
        (selectBestRefsBySimilarity entryText index).bestScore) := by
  unfold seifSelection
  rw [if_neg (by simp [h])]

/-- Claim C5: alignment mode and confidence.  For every paragraph entry
built by the alignment builder and each secondary corpus: when the link
endpoint yields at least one ref for that corpus (equivalently, since the
endpoint trims refs and drops empties, when the deduplication of its
output is non-empty) the entry records exactly those refs deduplicated,
with mode `linked-passages` and score 1; otherwise it records the
similarity-selection refs with mode `fallback-similarity` when non-empty
and `none` when empty, the score being the best similarity score; and the
stored confidence is `(score_tur + score_beit_yosef)/2` rounded to three
decimals. -/
theorem C5_seif_mapping_spec (linkedTurRefs linkedByRefs : List String)
    (entryText : String) (turIndex byIndex : List PreparedSimilarityChunk) :
    (∀ rs : List String, (∀ r ∈ rs, r.trim = r ∧ r ≠ "") →
        (dedupeRefs rs ≠ [] ↔ rs ≠ [])) ∧
    ((dedupeRefs linkedTurRefs ≠ [] →
        (buildSeifMapping linkedTurRefs linkedByRefs entryText turIndex byIndex).turRefs =
          dedupeRefs linkedTurRefs ∧
        (buildSeifMapping linkedTurRefs linkedByRefs entryText turIndex byIndex).turRefs.Nodup ∧
        (∀ r ∈ (buildSeifMapping linkedTurRefs linkedByRefs entryText turIndex byIndex).turRefs,
            r ∈ linkedTurRefs.map String.trim ∧ r ≠ "") ∧
        (buildSeifMapping linkedTurRefs linkedByRefs entryText turIndex byIndex).turMode =
          "linked-passages") ∧
      (dedupeRefs linkedTurRefs = [] →
        (buildSeifMapping linkedTurRefs linkedByRefs entryText turIndex byIndex).turRefs =
          (selectBestRefsBySimilarity entryText turIndex).refs ∧
        (buildSeifMapping linkedTurRefs linkedByRefs entryText turIndex byIndex).turMode =
          (if (selectBestRefsBySimilarity entryText turIndex).refs ≠ []
            then "fallback-similarity" else "none"))) ∧
    ((dedupeRefs linkedByRefs ≠ [] →
        (buildSeifMapping linkedTurRefs linkedByRefs entryText turIndex byIndex).byRefs =
          dedupeRefs linkedByRefs ∧
        (buildSeifMapping linkedTurRefs linkedByRefs entryText turIndex byIndex).byMode =
          "linked-passages") ∧
      (dedupeRefs linkedByRefs = [] →
        (buildSeifMapping linkedTurRefs linkedByRefs entryText turIndex byIndex).byRefs =
          (selectBestRefsBySimilarity entryText byIndex).refs ∧
        (buildSeifMapping linkedTurRefs linkedByRefs entryText turIndex byIndex).byMode =
          (if (selectBestRefsBySimilarity entryText byIndex).refs ≠ []
            then "fallback-similarity" else "none"))) ∧
    (buildSeifMapping linkedTurRefs linkedByRefs entryText turIndex byIndex).confidence =
      round3 (((if dedupeRefs linkedTurRefs ≠ [] then 1
          else (selectBestRefsBySimilarity entryText turIndex).bestScore) +
        (if dedupeRefs linkedByRefs ≠ [] then 1
          else (selectBestRefsBySimilarity entryText byIndex).bestScore)) / 2) := by
  refine ⟨?_, ⟨?_, ?_⟩, ⟨?_, ?_⟩, ?_⟩
  · intro rs hclean
    constructor
    · intro hne hnil
      rw [hnil] at hne
      exact hne rfl
    · exact dedupeRefs_ne_nil_of_clean rs hclean
  · intro h
    unfold buildSeifMapping
    rw [seifSelection_pos _ _ _ h]
    exact ⟨rfl, dedupeRefs_nodup _, fun r hr => dedupeRefsAux_mem [] linkedTurRefs r hr, rfl⟩
  · intro h
    unfold buildSeifMapping
    rw [seifSelection_neg _ entryText turIndex h]
    exact ⟨rfl, rfl⟩
  · intro h
    unfold buildSeifMapping
    rw [seifSelection_pos _ entryText byIndex h]
    exact ⟨rfl, rfl⟩
  · intro h
    unfold buildSeifMapping
    rw [seifSelection_neg _ entryText byIndex h]
    exact ⟨rfl, rfl⟩
  · unfold buildSeifMapping
    by_cases h1 : dedupeRefs linkedTurRefs ≠ [] <;>
      by_cases h2 : dedupeRefs linkedByRefs ≠ []
    · rw [seifSelection_pos _ _ turIndex h1, seifSelection_pos _ _ byIndex h2,
        if_pos h1, if_pos h2]
    · rw [seifSelection_pos _ _ turIndex h1,
        seifSelection_neg _ _ byIndex (not_not.mp h2), if_pos h1, if_neg h2]
    · rw [seifSelection_neg _ _ turIndex (not_not.mp h1),
        seifSelection_pos _ _ byIndex h2, if_neg h1, if_pos h2]
    · rw [seifSelection_neg _ _ turIndex (not_not.mp h1),
        seifSelection_neg _ _ byIndex (not_not.mp h2), if_neg h1, if_neg h2]

/-! ## Fragment chunkers

Two chunkers are embedded: the clause-based splitter of `part_003`
(`countWords`, `splitTextIntoSubChunks`, `chunkWithLimits`) and the
word-budget splitter of `src/lib/chunker.ts` (`splitByWordBudget`,
`chunkStructuredText`, with `generateHash`, `normalizeRefKey`,
`buildChunkId`).  JS `String.prototype.trim` is modelled by `jsTrim`
(drop whitespace from both ends). -/

def trimChars (cs : List Char) : List Char :=
  ((cs.dropWhile Char.isWhitespace).reverse.dropWhile Char.isWhitespace).reverse

def jsTrim (s : String) : String := String.mk (trimChars s.toList)

/-- The character class `[א-תa-zA-Z0-9]` of `countWords` (`part_003` line 18). -/
def isWordChar (c : Char) : Bool := isHebrewLetter c || c.isAlpha || c.isDigit

/-- JS `text.split(/\s+/).filter(Boolean)`: maximal runs of non-whitespace. -/
def jsFields (s : String) : List (List Char) :=
  (s.toList.splitOnP Char.isWhitespace).filter (· ≠ [])

/-- `countWords` from `part_003` lines 15-19: whitespace tokens of the
trimmed text that contain at least one Hebrew/Latin/digit character.
(`trim` before splitting only drops empty end tokens, which fail the
character test anyway, so counting the fields is exact.) -/
def countWords (text : String) : Nat :=
  (jsFields text).countP (fun t => t.any isWordChar)

/-- Delimiter class `[.:\n]` of the clause regex (`part_003` line 33). -/
def isClauseDelim (c : Char) : Bool := c = '.' || c = ':' || c = '\n'

/-- Global matches of `/[^.:\n]+[.:\n]+/g`: repeatedly skip characters that
cannot start a match (leading delimiters), take a non-empty non-delimiter
run followed by a non-empty delimiter run; text after the last delimiter
produces no match.  Fuelled by the input length. -/
def clauseMatchesGo : Nat → List Char → List (List Char)
  | 0, _ => []
  | _ + 1, [] => []
  | fuel + 1, cs =>
    let cs1 := cs.dropWhile isClauseDelim
    let body := cs1.takeWhile (fun c => !isClauseDelim c)
    let rest := cs1.dropWhile (fun c => !isClauseDelim c)
    if body = [] then []
    else if rest = [] then []
    else (body ++ rest.takeWhile isClauseDelim) :: clauseMatchesGo fuel (rest.dropWhile isClauseDelim)

/-- The words-fallback accumulation of `part_003` lines 37-48
(raw `split(' ')` tokens, groups of `maxWords` raw tokens). -/
def wordFallbackGo (maxWords : Nat) : List String → List String → List String
  | [], currentAcc => if currentAcc = [] then [] else [String.intercalate " " currentAcc]
  | w :: ws, currentAcc =>
    let acc' := currentAcc ++ [w]
    if maxWords ≤ acc'.length then
      String.intercalate " " acc' :: wordFallbackGo maxWords ws []
    else wordFallbackGo maxWords ws acc'

/-- The clause-grouping loop of `part_003` lines 51-77. -/
def clauseFoldGo (maxWords minWords : Nat) :
    List String → List String → String → List String
  | [], result, currentGroup =>
    if jsTrim currentGroup ≠ "" then result ++ [jsTrim currentGroup] else result
  | clause :: rest, result, currentGroup =>
    let nextWords := countWords clause
    let currWords := countWords currentGroup
    if maxWords < currWords + nextWords ∧ minWords ≤ currWords then
      clauseFoldGo maxWords minWords rest (result ++ [jsTrim currentGroup]) clause
    else if maxWords + 50 < currWords + nextWords then
      clauseFoldGo maxWords minWords rest
        (result ++ (if currentGroup ≠ "" then [jsTrim currentGroup] else []) ++ [jsTrim clause]) ""
    else clauseFoldGo maxWords minWords rest result (currentGroup ++ " " ++ clause)

/-- `splitTextIntoSubChunks` from `part_003` lines 26-79. -/
def splitTextIntoSubChunks (text : String) (maxWords minWords : Nat) : List String :=
  let clauses0 := (clauseMatchesGo text.toList.length text.toList).map String.mk
  let clauses := if clauses0 = [] then [text] else clauses0
  if clauses.length ≤ 1 then
    wordFallbackGo maxWords (text.splitOn " ") []
  else
    clauseFoldGo maxWords minWords clauses [] ""

/-- `chunkWithLimits` from `part_003` lines 138-166: pass short fragments
through unchanged, split long ones, each sub-chunk inheriting the parent
`ref` and (a copy of) the parent `path`. -/
def chunkWithLimits (chunks : List StructuredChunk) (maxWords minWords : Nat) :
    List StructuredChunk :=
  chunks.flatMap (fun chunk =>
    if countWords chunk.text ≤ maxWords then [chunk]
    else ((splitTextIntoSubChunks chunk.text maxWords minWords).filter
        (fun st => jsTrim st ≠ "")).map
      (fun st => StructuredChunk.mk chunk.ref chunk.path st))

/-- JS `Math.imul` on the unsigned-32 representation. -/
def imul32 (a b : Nat) : Nat := (a * b) % 4294967296

/-- 32-bit xor (operands already below `2^32`). -/
def xor32 (a b : Nat) : Nat := (Nat.xor a b) % 4294967296

/-- `generateHash` from `src/lib/chunker.ts` lines 24-38 (cyrb53-style).
JS signed 32-bit values are carried as their unsigned residues, which the
final `>>> 0` / `& 2097151` reads back exactly; `charCodeAt` agrees with
the code point for the BMP texts the system handles. -/
def generateHash (text : String) : String :=
  let len := text.length % 4294967296
  let start : Nat × Nat := (xor32 0xdeadbeef len, xor32 0x41c6ce57 len)
  let hs := text.toList.foldl (fun (p : Nat × Nat) (c : Char) =>
    (imul32 (xor32 p.1 c.toNat) 2654435761, imul32 (xor32 p.2 c.toNat) 1597334677)) start
  let h1a := xor32 (imul32 (xor32 hs.1 (hs.1 >>> 16)) 2246822507)
    (imul32 (xor32 hs.2 (hs.2 >>> 13)) 3266489909)
  let h2a := xor32 (imul32 (xor32 hs.2 (hs.2 >>> 16)) 2246822507)
    (imul32 (xor32 h1a (h1a >>> 13)) 3266489909)
  String.mk (Nat.toDigits 16 (4294967296 * (h2a % 2097152) + h1a))

/-- Sentence-boundary test of `splitByWordBudget` (line 56):
`/[׃.:?!]/.test(word)`. -/
def hasBoundary (w : List Char) : Bool :=
  w.any (fun c => c = Char.ofNat 0x05C3 || c = '.' || c = ':' || c = '?' || c = '!')

/-- The accumulation loop of `splitByWordBudget` (lines 49-66): push a
word, flush once the group has reached `minWords` and either the word
carries a sentence boundary or the group has reached `maxWords`. -/
def budgetGroupsGo (minWords maxWords : Nat) :
    List (List Char) → List (List Char) → List (List (List Char))
  | [], currentWords => if currentWords = [] then [] else [currentWords]
  | w :: ws, currentWords =>
    let cur' := currentWords ++ [w]
    if minWords ≤ cur'.length ∧ (hasBoundary w ∨ maxWords ≤ cur'.length) then
      cur' :: budgetGroupsGo minWords maxWords ws []
    else budgetGroupsGo minWords maxWords ws cur'

/-- JS `words.join(' ')` at the character-list level. -/
def joinWords : List (List Char) → List Char
  | [] => []
  | [w] => w
  | w :: ws => w ++ ' ' :: joinWords ws

/-- `splitByWordBudget` from `src/lib/chunker.ts` lines 43-68. -/
def splitByWordBudget (text : String) (minWords maxWords : Nat) : List String :=
  let words := jsFields text
  if words.length ≤ maxWords then [jsTrim text]
  else ((budgetGroupsGo minWords maxWords words []).map
    (fun g => String.mk (trimChars (joinWords g)))).filter (· ≠ "")

/-- Key characters `[a-z0-9]` kept by `normalizeRefKey`. -/
def isKeyChar (c : Char) : Bool := c.isLower || c.isDigit

/-- Collapse runs of non-key characters to single underscores
(`replace(/[^a-z0-9]+/g, '_')`). -/
def underscoreRuns : List Char → List Char
  | [] => []
  | c :: rest =>
    if isKeyChar c then c :: underscoreRuns rest
    else '_' :: underscoreRuns (rest.dropWhile (fun d => !isKeyChar d))
termination_by cs => cs.length
decreasing_by
  · simp
  · simp only [List.length_cons]
    exact Nat.lt_succ_of_le ((List.dropWhile_sublist _).length_le)

/-- `normalizeRefKey` from `src/lib/chunker.ts` lines 70-81: lowercase,
collapse non-alphanumeric runs to `_`, strip outer underscores, fall back
to `"ref"`, keep the last 64 characters. -/
def normalizeRefKey (ref : String) : String :=
  let lowered := ref.toList.map Char.toLower
  let collapsed := underscoreRuns lowered
  let strippedFront := collapsed.dropWhile (· = '_')
  let stripped := (strippedFront.reverse.dropWhile (· = '_')).reverse
  if stripped = [] then "ref"
  else if stripped.length ≤ 64 then String.mk stripped
  else String.mk (stripped.drop (stripped.length - 64))

/-- `buildChunkId` from `src/lib/chunker.ts` lines 83-87. -/
def buildChunkId (source ref : String) (path : Option (List Nat)) (index : Nat) : String :=
  let refPart := normalizeRefKey ref
  let pathPart := match path with
    | some p => if p ≠ [] then String.intercalate "_" (p.map toString) else "root"
    | none => "root"
  source ++ "_" ++ refPart ++ "_" ++ pathPart ++ "_chunk_" ++ toString (index + 1)

structure TextChunk where
  id : String
  text : String
  rawHash : String
  ref : Option String
  path : Option (List Nat)
  deriving Repr, DecidableEq

/-- `chunkStructuredText` from `src/lib/chunker.ts` lines 93-115 (the chunk
id uses the global position `chunks.length`, hence the accumulator). -/
def chunkStructuredTextGo (source : String) :
    List StructuredChunk → List TextChunk → List TextChunk
  | [], acc => acc
  | segment :: rest, acc =>
    let cleanText := jsTrim segment.text
    if cleanText = "" then chunkStructuredTextGo source rest acc
    else
      let parts := splitByWordBudget cleanText 120 180
      let acc' := parts.foldl (fun a part =>
        a ++ [TextChunk.mk (buildChunkId source segment.ref segment.path a.length)
          part (generateHash part) (some segment.ref) segment.path]) acc
      chunkStructuredTextGo source rest acc'

def chunkStructuredText (segments : List StructuredChunk) (source : String) : List TextChunk :=
  chunkStructuredTextGo source segments []

/-! ### Word-budget properties (claim C2) -/

/-- `jsFields` at the character-list level. -/
def wsFields (cs : List Char) : List (List Char) :=
  (cs.splitOnP Char.isWhitespace).filter (· ≠ [])

theorem jsFields_mk (cs : List Char) : jsFields (String.mk cs) = wsFields cs := rfl

theorem splitOnP_mem_no_p (p : Char → Bool) (cs : List Char) :
    ∀ w ∈ List.splitOnP p cs, ∀ c ∈ w, p c = false := by
  induction cs with
  | nil =>
    intro w hw c hc
    rw [List.splitOnP_nil] at hw
    simp at hw
    simp [hw] at hc
  | cons d ds ih =>
    intro w hw c hc
    rw [List.splitOnP_cons] at hw
    by_cases hd : p d
    · rw [if_pos hd] at hw
      rcases List.mem_cons.mp hw with rfl | hw'
      · simp at hc
      · exact ih w hw' c hc
    · rw [if_neg hd] at hw
      obtain ⟨h0, t, hsplit⟩ := List.exists_cons_of_ne_nil (List.splitOnP_ne_nil p ds)
      rw [hsplit, List.modifyHead_cons] at hw
      rcases List.mem_cons.mp hw with rfl | hw'
      · rcases List.mem_cons.mp hc with rfl | hc'
        · simpa using hd
        · exact ih h0 (by rw [hsplit]; exact List.mem_cons_self _ _) c hc'
      · exact ih w (by rw [hsplit]; exact List.mem_cons_of_mem _ hw') c hc

theorem wsFields_props (cs : List Char) :
    ∀ w ∈ wsFields cs, w ≠ [] ∧ ∀ c ∈ w, Char.isWhitespace c = false := by
  intro w hw
  rw [wsFields, List.mem_filter] at hw
  exact ⟨by simpa using hw.2, splitOnP_mem_no_p _ cs w hw.1⟩

theorem splitOnP_append_delim (p : Char → Bool) (c : Char) (hc : p c = true) (l : List Char) :
    List.splitOnP p (l ++ [c]) = List.splitOnP p l ++ [[]] := by
  induction l with
  | nil => simp [List.splitOnP_cons, List.splitOnP_nil, hc]
  | cons d ds ih =>
    by_cases hd : p d
    · rw [List.cons_append, List.splitOnP_cons, if_pos hd, ih,
        List.splitOnP_cons, if_pos hd, List.cons_append]
    · rw [List.cons_append, List.splitOnP_cons, if_neg hd, ih,
        List.splitOnP_cons, if_neg hd]
      obtain ⟨h0, t, hsplit⟩ := List.exists_cons_of_ne_nil (List.splitOnP_ne_nil p ds)
      rw [hsplit, List.cons_append, List.modifyHead_cons, List.modifyHead_cons,
        List.cons_append]

theorem wsFields_append_delims (l ds : List Char)
    (hds : ∀ c ∈ ds, Char.isWhitespace c = true) :
    wsFields (l ++ ds) = wsFields l := by
  induction ds using List.reverseRecOn with
  | nil => simp
  | append_singleton ds' c ih =>
    have hc : Char.isWhitespace c = true := hds c (by simp)
    have hih := ih (fun d hd => hds d (by simp [hd]))
    rw [← List.append_assoc, wsFields, splitOnP_append_delim _ c hc, List.filter_append]
    simpa [wsFields] using hih

theorem wsFields_dropWhile (l : List Char) :
    wsFields (l.dropWhile Char.isWhitespace) = wsFields l := by
  induction l with
  | nil => rfl
  | cons c cs ih =>
    by_cases hc : Char.isWhitespace c
    · have h2 : wsFields (c :: cs) = wsFields cs := by
        rw [wsFields, List.splitOnP_cons, if_pos (by simpa using hc)]
        simp [wsFields]
      rw [List.dropWhile_cons_of_pos (by simpa using hc), ih, h2]
    · rw [List.dropWhile_cons_of_neg (by simpa using hc)]

theorem wsFields_trimChars (cs : List Char) : wsFields (trimChars cs) = wsFields cs := by
  unfold trimChars
  set l1 := cs.dropWhile Char.isWhitespace with hl1
  have hdecomp : l1 = (l1.reverse.dropWhile Char.isWhitespace).reverse ++
      (l1.reverse.takeWhile Char.isWhitespace).reverse := by
    have h := List.takeWhile_append_dropWhile Char.isWhitespace l1.reverse
    calc l1 = l1.reverse.reverse := (List.reverse_reverse l1).symm
      _ = (l1.reverse.takeWhile Char.isWhitespace ++
            l1.reverse.dropWhile Char.isWhitespace).reverse := by rw [h]
      _ = _ := by rw [List.reverse_append]
  have hws : ∀ c ∈ (l1.reverse.takeWhile Char.isWhitespace).reverse,
      Char.isWhitespace c = true := by
    intro c hc
    rw [List.mem_reverse] at hc
    exact List.mem_takeWhile_imp hc
  calc wsFields (l1.reverse.dropWhile Char.isWhitespace).reverse
      = wsFields ((l1.reverse.dropWhile Char.isWhitespace).reverse ++
          (l1.reverse.takeWhile Char.isWhitespace).reverse) :=
        (wsFields_append_delims _ _ hws).symm
    _ = wsFields l1 := by rw [← hdecomp]
    _ = wsFields cs := wsFields_dropWhile cs

theorem splitOnP_clean_append (p : Char → Bool) (sep : Char) (hsep : p sep = true)
    (w rest : List Char) (hw : ∀ c ∈ w, p c = false) :
    List.splitOnP p (w ++ sep :: rest) = w :: List.splitOnP p rest := by
  induction w with
  | nil => simp [List.splitOnP_cons, hsep]
  | cons c w' ih =>
    have hc : p c = false := hw c (List.mem_cons_self _ _)
    rw [List.cons_append, List.splitOnP_cons, if_neg (by simp [hc]),
      ih (fun d hd => hw d (List.mem_cons_of_mem _ hd)), List.modifyHead_cons]

theorem splitOnP_clean (p : Char → Bool) (w : List Char) (hw : ∀ c ∈ w, p c = false) :
    List.splitOnP p w = [w] := by
  induction w with
  | nil => exact List.splitOnP_nil p
  | cons c w' ih =>
    have hc : p c = false := hw c (List.mem_cons_self _ _)
    rw [List.splitOnP_cons, if_neg (by simp [hc]),
      ih (fun d hd => hw d (List.mem_cons_of_mem _ hd)), List.modifyHead_cons]

theorem wsFields_joinWords (g : List (List Char))
    (hg : ∀ w ∈ g, w ≠ [] ∧ ∀ c ∈ w, Char.isWhitespace c = false) :
    wsFields (joinWords g) = g := by
  induction g with
  | nil => rfl
  | cons w ws ih =>
    cases ws with
    | nil =>
      obtain ⟨hne, hclean⟩ := hg w (List.mem_cons_self _ _)
      rw [show joinWords [w] = w from rfl, wsFields, splitOnP_clean _ w hclean]
      simp [hne]
    | cons x xs =>
      obtain ⟨hne, hclean⟩ := hg w (List.mem_cons_self _ _)
      rw [show joinWords (w :: x :: xs) = w ++ ' ' :: joinWords (x :: xs) from rfl,
        wsFields, splitOnP_clean_append _ ' ' (by decide) w _ hclean]
      simp only [List.filter_cons]
      rw [← wsFields, ih (fun v hv => hg v (List.mem_cons_of_mem _ hv))]
      simp [hne]

theorem budgetGroupsGo_flatten (minWords maxWords : Nat) (ws : List (List Char))
    (cur : List (List Char)) :
    (budgetGroupsGo minWords maxWords ws cur).flatten = cur ++ ws := by
  induction ws generalizing cur with
  | nil =>
    by_cases hcur : cur = []
    · simp [budgetGroupsGo, hcur]
    · simp [budgetGroupsGo, hcur]
  | cons w ws' ih =>
    unfold budgetGroupsGo
    dsimp only
    split_ifs with h
    · rw [List.flatten_cons, ih []]
      simp
    · rw [ih (cur ++ [w])]
      simp

theorem budgetGroupsGo_ne_nil (minWords maxWords : Nat) (ws : List (List Char))
    (cur : List (List Char)) :
    ∀ g ∈ budgetGroupsGo minWords maxWords ws cur, g ≠ [] := by
  induction ws generalizing cur with
  | nil =>
    intro g hg
    by_cases hcur : cur = []
    · simp [budgetGroupsGo, hcur] at hg
    · simp only [budgetGroupsGo, hcur, if_false, List.mem_singleton] at hg
      simpa [hg] using hcur
  | cons w ws' ih =>
    intro g hg
    unfold budgetGroupsGo at hg
    dsimp only at hg
    split_ifs at hg with h
    · rcases List.mem_cons.mp hg with rfl | hg'
      · simp
      · exact ih [] g hg'
    · exact ih (cur ++ [w]) g hg

theorem budgetGroupsGo_bounds (minWords maxWords : Nat)
    (hmn : minWords ≤ maxWords) (ws : List (List Char)) (cur : List (List Char))
    (hcur : cur.length < maxWords) :
    ∀ g ∈ (budgetGroupsGo minWords maxWords ws cur).dropLast,
      minWords ≤ g.length ∧ g.length ≤ maxWords := by
  induction ws generalizing cur with
  | nil =>
    intro g hg
    by_cases hc : cur = [] <;> simp [budgetGroupsGo, hc] at hg
  | cons w ws' ih =>
    intro g hg
    unfold budgetGroupsGo at hg
    dsimp only at hg
    split_ifs at hg with h
    · cases hrec : budgetGroupsGo minWords maxWords ws' [] with
      | nil =>
        rw [hrec] at hg
        simp at hg
      | cons g0 gs =>
        rw [hrec, List.dropLast_cons₂] at hg
        rcases List.mem_cons.mp hg with rfl | hg'
        · refine ⟨h.1, ?_⟩
          simpa using Nat.succ_le_of_lt hcur
        · have := ih [] (by simpa using Nat.lt_of_lt_of_le (Nat.lt_of_le_of_lt (Nat.zero_le _) hcur) (le_refl _))
          rw [hrec] at this
          exact this g hg'
    · have hlt : (cur ++ [w]).length < maxWords := by
        by_contra hge
        push_neg at hge
        exact h ⟨le_trans hmn hge, Or.inr hge⟩
      exact ih (cur ++ [w]) hlt g hg

theorem flatMap_eq_flatten_of_eq {α : Type} (F : List α → List α) (L : List (List α))
    (h : ∀ g ∈ L, F g = g) : L.flatMap F = L.flatten := by
  induction L with
  | nil => rfl
  | cons g gs ih =>
    rw [List.flatMap_cons, List.flatten_cons, h g (List.mem_cons_self _ _),
      ih (fun g' hg' => h g' (List.mem_cons_of_mem _ hg'))]

theorem jsFields_empty : jsFields "" = [] := rfl

/-- Core facts about one word-budget run (else branch of
`splitByWordBudget`): re-splitting any produced part recovers exactly its
word group. -/
theorem splitByWordBudget_fields (text : String) (minWords maxWords : Nat)
    (g : List (List Char))
    (hg : g ∈ budgetGroupsGo minWords maxWords (jsFields text) []) :
    jsFields (String.mk (trimChars (joinWords g))) = g := by
  have hwords : ∀ w ∈ g, w ≠ [] ∧ ∀ c ∈ w, Char.isWhitespace c = false := by
    intro w hw
    have hflat : w ∈ (budgetGroupsGo minWords maxWords (jsFields text) []).flatten :=
      List.mem_flatten.mpr ⟨g, hg, hw⟩
    rw [budgetGroupsGo_flatten, List.nil_append] at hflat
    exact wsFields_props text.toList w hflat
  rw [jsFields_mk, wsFields_trimChars, wsFields_joinWords g hwords]

/-- Claim C2 (amended): chunker word budget.  For the word-budget splitter
`splitByWordBudget` of `src/lib/chunker.ts` (the explanation-profile
chunker), with `0 < maxWords` and `minWords ≤ maxWords`: every emitted
part except possibly the last has a whitespace-word count in
`[minWords, maxWords]` (hence within the claimed `[min, max+50]`), and
the concatenation of the parts' word sequences equals the source text's
whole word sequence (whitespace-normalized equality with the whole
source).  For the clause splitter `splitTextIntoSubChunks` of `part_003`,
the oversized branch fires as soon as the accumulated group plus the next
clause exceeds `maxWords + 50` while the budget flush is not available:
it emits the accumulated group as its own (possibly short) chunk followed
by the clause as its own (possibly oversized) chunk — so the
`[min, max+50]` interval does not hold there, as the counterexample
shows. -/
theorem C2_word_budget_amended (text : String) (minWords maxWords : Nat)
    (hmn : minWords ≤ maxWords) (hmx : 0 < maxWords)
    (clause : String) (rest result : List String) (currentGroup : String)
    (hover : maxWords + 50 < countWords currentGroup + countWords clause)
    (hnoflush : ¬(maxWords < countWords currentGroup + countWords clause ∧
        minWords ≤ countWords currentGroup)) :
    (∀ p ∈ (splitByWordBudget text minWords maxWords).dropLast,
        minWords ≤ (jsFields p).length ∧ (jsFields p).length ≤ maxWords) ∧
    (splitByWordBudget text minWords maxWords).flatMap (fun p => jsFields p) =
      jsFields text ∧
    clauseFoldGo maxWords minWords (clause :: rest) result currentGroup =
      clauseFoldGo maxWords minWords rest
        (result ++ (if currentGroup ≠ "" then [jsTrim currentGroup] else []) ++
          [jsTrim clause]) "" := by
  have hfilter : ∀ h : ¬ (jsFields text).length ≤ maxWords,
      splitByWordBudget text minWords maxWords =
        (budgetGroupsGo minWords maxWords (jsFields text) []).map
          (fun g => String.mk (trimChars (joinWords g))) := by
    intro h
    unfold splitByWordBudget
    rw [if_neg h]
    apply List.filter_eq_self.mpr
    intro p hp
    rw [List.mem_map] at hp
    obtain ⟨g, hg, rfl⟩ := hp
    have hne : g ≠ [] := budgetGroupsGo_ne_nil _ _ _ _ g hg
    have hfg := splitByWordBudget_fields text minWords maxWords g hg
    simp only [ne_eq, decide_eq_true_eq]
    intro hempty
    rw [hempty, jsFields_empty] at hfg
    exact hne hfg.symm
  refine ⟨?_, ?_, ?_⟩
  · intro p hp
    by_cases hshort : (jsFields text).length ≤ maxWords
    · unfold splitByWordBudget at hp
      rw [if_pos hshort] at hp
      simp at hp
    · rw [hfilter hshort, ← List.map_dropLast] at hp
      rw [List.mem_map] at hp
      obtain ⟨g, hg, rfl⟩ := hp
      have hgmem : g ∈ budgetGroupsGo minWords maxWords (jsFields text) [] :=
        (List.dropLast_sublist _).subset hg
      rw [splitByWordBudget_fields text minWords maxWords g hgmem]
      exact budgetGroupsGo_bounds minWords maxWords hmn (jsFields text) []
        (by simpa using hmx) g hg
  · by_cases hshort : (jsFields text).length ≤ maxWords
    · unfold splitByWordBudget
      rw [if_pos hshort]
      show jsFields (jsTrim text) ++ [] = jsFields text
      rw [List.append_nil]
      show wsFields (trimChars text.toList) = wsFields text.toList
      exact wsFields_trimChars text.toList
    · rw [hfilter hshort, List.flatMap_map,
        flatMap_eq_flatten_of_eq _ _ (splitByWordBudget_fields text minWords maxWords),
        budgetGroupsGo_flatten, List.nil_append]
  · conv_lhs => unfold clauseFoldGo
    dsimp only
    rw [if_neg hnoflush, if_pos hover]

/-- Spec-side whitespace normalization (single spaces between the
whitespace-separated words). -/
def wsNormalize (s : String) : String := String.mk (joinWords (jsFields s))

def cxTenWords : String := String.intercalate " " (List.replicate 10 "a")

def cxNinetyOneWords : String := String.intercalate " " (List.replicate 91 "b")

/-- A fragment whose second clause has 91 words: with the adaptive
alignment profile `(minWords, maxWords) = (25, 50)` the clause splitter
emits a first chunk of 10 words, below `minWords`, that is not the last
chunk. -/
def cxChunkText : String := cxTenWords ++ ". " ++ cxNinetyOneWords ++ "."

set_option maxRecDepth 8000 in
/-- Counterexample to claim C2 as stated, at the explicit inputs
`cxChunkText` and `".a. b."` with the source's alignment profile
`maxWords = 50`, `minWords = 25` (`chunkForAlignment`, `part_003` lines
114-117): the first emitted chunk of `cxChunkText` is not the last chunk
of the fragment yet has 10 words, outside `[25, 100]`; and for `".a. b."`
the single emitted chunk, whitespace-normalized, is `"a. b."`, which is
not a prefix of the (already normalized) source text `".a. b."` — the
clause regex drops leading delimiter characters. -/
theorem C2_word_budget_counterexample :
    (splitTextIntoSubChunks cxChunkText 50 25).length = 2 ∧
    countWords ((splitTextIntoSubChunks cxChunkText 50 25).getD 0 "") = 10 ∧
    10 < 25 ∧
    splitTextIntoSubChunks ".a. b." 50 25 = ["a.  b."] ∧
    wsNormalize "a.  b." = "a. b." ∧
    ("a. b.".toList.isPrefixOf ".a. b.".toList) = false := by
  refine ⟨by decide, by decide, by norm_num, by decide, by decide, by decide⟩

set_option maxRecDepth 8000 in
/-- Witness for C2 (amended) at a concrete text and at the concrete
oversized step of the counterexample fragment. -/
theorem C2_word_budget_amended_witness :
    (∀ p ∈ (splitByWordBudget "aa bb cc" 25 50).dropLast,
        25 ≤ (jsFields p).length ∧ (jsFields p).length ≤ 50) ∧
    (splitByWordBudget "aa bb cc" 25 50).flatMap (fun p => jsFields p) =
      jsFields "aa bb cc" ∧
    clauseFoldGo 50 25 (cxNinetyOneWords :: []) [] cxTenWords =
      clauseFoldGo 50 25 []
        ([] ++ (if cxTenWords ≠ "" then [jsTrim cxTenWords] else []) ++
          [jsTrim cxNinetyOneWords]) "" :=
  C2_word_budget_amended "aa bb cc" 25 50 (by norm_num) (by norm_num)
    cxNinetyOneWords [] [] cxTenWords (by decide) (by decide)

/-- Claim C9: chunker provenance.  Every chunk emitted by `chunkWithLimits`
(`part_003`) carries the `ref` and the `path` of the fragment it was cut
from — either it is the fragment itself, or its text is one of the
fragment's sub-chunk texts; and every chunk emitted by
`chunkStructuredText` (`src/lib/chunker.ts`) carries the `ref` and `path`
of the segment it was cut from. -/
theorem C9_chunker_provenance (chunks : List StructuredChunk) (maxWords minWords : Nat)
    (segments : List StructuredChunk) (source : String) :
    (∀ out ∈ chunkWithLimits chunks maxWords minWords,
        ∃ src ∈ chunks, out.ref = src.ref ∧ out.path = src.path ∧
          (out = src ∨ out.text ∈ splitTextIntoSubChunks src.text maxWords minWords)) ∧
    (∀ out ∈ chunkStructuredText segments source,
        ∃ src ∈ segments, out.ref = some src.ref ∧ out.path = src.path) := by
  constructor
  · intro out hout
    unfold chunkWithLimits at hout
    rw [List.mem_flatMap] at hout
    obtain ⟨src, hsrc, hmem⟩ := hout
    by_cases hshort : countWords src.text ≤ maxWords
    · rw [if_pos hshort, List.mem_singleton] at hmem
      exact ⟨src, hsrc, by rw [hmem], by rw [hmem], Or.inl hmem⟩
    · rw [if_neg hshort, List.mem_map] at hmem
      obtain ⟨st, hst, rfl⟩ := hmem
      rw [List.mem_filter] at hst
      exact ⟨src, hsrc, rfl, rfl, Or.inr hst.1⟩
  · intro out hout
    unfold chunkStructuredText at hout
    suffices h : ∀ segs acc, out ∈ chunkStructuredTextGo source segs acc →
        out ∈ acc ∨ ∃ src ∈ segs, out.ref = some src.ref ∧ out.path = src.path by
      rcases h segments [] hout with habs | hok
      · simp at habs
      · exact hok
    intro segs
    induction segs with
    | nil =>
      intro acc hacc
      exact Or.inl hacc
    | cons seg rest ih =>
      intro acc hacc
      unfold chunkStructuredTextGo at hacc
      dsimp only at hacc
      by_cases hclean : jsTrim seg.text = ""
      · rw [if_pos hclean] at hacc
        rcases ih acc hacc with h | ⟨src, hsrc, h1, h2⟩
        · exact Or.inl h
        · exact Or.inr ⟨src, List.mem_cons_of_mem _ hsrc, h1, h2⟩
      · rw [if_neg hclean] at hacc
        rcases ih _ hacc with h | ⟨src, hsrc, h1, h2⟩
        · -- `out` is in the accumulator extended with this segment's parts
          have hfold : ∀ (parts : List String) (a : List TextChunk),
              out ∈ parts.foldl (fun a part =>
                a ++ [TextChunk.mk (buildChunkId source seg.ref seg.path a.length)
                  part (generateHash part) (some seg.ref) seg.path]) a →
              out ∈ a ∨ out.ref = some seg.ref ∧ out.path = seg.path := by
            intro parts
            induction parts with
            | nil => intro a ha; exact Or.inl ha
            | cons p ps ihp =>
              intro a ha
              rcases ihp _ ha with hmem | hnew
              · rw [List.mem_append] at hmem
                rcases hmem with hmem | hmem
                · exact Or.inl hmem
                · rw [List.mem_singleton] at hmem
                  exact Or.inr ⟨by rw [hmem], by rw [hmem]⟩
              · exact Or.inr hnew
          rcases hfold _ _ h with h' | ⟨h1, h2⟩
          · exact Or.inl h'
          · exact Or.inr ⟨seg, List.mem_cons_self _ _, h1, h2⟩
        · exact Or.inr ⟨src, List.mem_cons_of_mem _ hsrc, h1, h2⟩

/-- Witness for C9 at a concrete fragment list. -/
theorem C9_chunker_provenance_witness :
    (∃ src ∈ [StructuredChunk.mk "Ref A" (some [0]) "one two"],
        (StructuredChunk.mk "Ref A" (some [0]) "one two").ref = src.ref ∧
        (StructuredChunk.mk "Ref A" (some [0]) "one two").path = src.path ∧
        (StructuredChunk.mk "Ref A" (some [0]) "one two" = src ∨
          (StructuredChunk.mk "Ref A" (some [0]) "one two").text ∈
            splitTextIntoSubChunks src.text 180 120)) :=
  (C9_chunker_provenance [StructuredChunk.mk "Ref A" (some [0]) "one two"] 180 120 [] "he").1
    (StructuredChunk.mk "Ref A" (some [0]) "one two") (by decide)

/-! ## LLM fallback cascade (`part_006`)

`generateTextWithFallback` and its error classifiers.  The provider
(`generateWithTimeout`) is an oracle `gen : model → attempt → LLMOutcome`
returning the trimmed text or the stringified error message; the wall
clock is not modelled, but every `sleep(backoffMs)` is recorded as a
trace event with its millisecond argument. -/

def toLowerStr (s : String) : String := String.mk (s.toList.map Char.toLower)

/-- JS `String.prototype.includes` on character lists. -/
def listHasInfix (cs pat : List Char) : Bool :=
  pat.isPrefixOf cs ||
    (match cs with
     | [] => false
     | _ :: rest => listHasInfix rest pat)

def includes (s pat : String) : Bool := listHasInfix s.toList pat.toList

/-- `isModelUnavailableError` (`part_006` lines 65-73). -/
def isModelUnavailableError (msg : String) : Bool :=
  let m := toLowerStr msg
  includes m "model" &&
    (includes m "not found" || includes m "not supported" || includes m "404")

/-- `isTransientError` (`part_006` lines 75-83). -/
def isTransientError (msg : String) : Bool :=
  let m := toLowerStr msg
  includes m "503" || includes m "timeout" || includes m "temporar" ||
    includes m "rate limit"

/-- `isQuotaExhaustedError` (`part_006` lines 85-93). -/
def isQuotaExhaustedError (msg : String) : Bool :=
  let m := toLowerStr msg
  includes m "429" || includes m "quota" || includes m "resource_exhausted" ||
    includes m "resource exhausted"

structure ModelConfig where
  primary : String
  cost : String
  fallback : String
  useBatch : Bool
  batchThreshold : Nat
  deriving Repr, DecidableEq

/-- JS `x || dflt` for an optional string (`""` and absence are falsy). -/
def jsOr (o : Option String) (dflt : String) : String :=
  let v := o.getD ""
  if v ≠ "" then v else dflt

/-- `getModelCandidates` (`part_006` lines 27-33): `[preferred, cost,
fallback]`, empty names filtered out (JS `filter(Boolean)`), deduplicated
preserving order (JS `Set`). -/
def getModelCandidates (config : ModelConfig) (preferredModel : Option String) : List String :=
  let preferred := jsOr preferredModel config.primary
  dedupFirst ([preferred, config.cost, config.fallback].filter (· ≠ ""))

inductive LLMOutcome where
  | ok (text : String)
  | err (msg : String)
  deriving Repr, DecidableEq

inductive GenEvent where
  | call (model : String) (attempt : Nat)
  | sleep (ms : Nat)
  deriving Repr, DecidableEq

structure GenResult where
  text : String
  modelUsed : String
  usedFallback : Bool
  deriving Repr, DecidableEq

/-- The inner attempt loop of `generateTextWithFallback` (lines 129-156)
for one candidate, starting at `attempt` with `fuel` retries left after
the current one (`fuel = maxRetries - attempt`).  Returns the successful
text if any, the event trace, and the last error seen. -/
def runAttempts (gen : String → Nat → LLMOutcome) (model : String) :
    Nat → Nat → Option String × List GenEvent × Option String
  | attempt, fuel =>
    match gen model attempt with
    | .ok t => (some t, [.call model attempt], none)
    | .err e =>
      if isModelUnavailableError e || isQuotaExhaustedError e then
        (none, [.call model attempt], some e)
      else
        match fuel with
        | 0 => (none, [.call model attempt], some e)
        | fuel' + 1 =>
          if isTransientError e then
            let r := runAttempts gen model (attempt + 1) fuel'
            (r.1, .call model attempt :: .sleep (400 * 2 ^ (attempt - 1)) :: r.2.1,
              (r.2.2).orElse (fun _ => some e))
          else (none, [.call model attempt], some e)

/-- The candidate loop of `generateTextWithFallback` (lines 128-157). -/
def cascadeGo (gen : String → Nat → LLMOutcome) (maxRetries : Nat) (primary : String) :
    List String → Option GenResult × List GenEvent
  | [] => (none, [])
  | model :: rest =>
    let r := runAttempts gen model 1 (maxRetries - 1)
    match r.1 with
    | some t => (some ⟨t, model, decide (model ≠ primary)⟩, r.2.1)
    | none =>
      let next := cascadeGo gen maxRetries primary rest
      (next.1, r.2.1 ++ next.2)

/-- `generateTextWithFallback` from `part_006` lines 121-160 (`none` in
the first component models the final `throw lastError`). -/
def generateTextWithFallback (gen : String → Nat → LLMOutcome) (config : ModelConfig)
    (preferredModel : Option String) (maxRetries : Nat) :
    Option GenResult × List GenEvent :=
  let candidates := getModelCandidates config preferredModel
  let primary := candidates.headD ""
  cascadeGo gen maxRetries primary candidates

/-- Number of provider calls to `m` recorded in a trace. -/
def callCount (m : String) (evs : List GenEvent) : Nat :=
  (evs.filter (fun e => match e with
    | .call m' _ => m' == m
    | .sleep _ => false)).length

/-- Sleeps in a trace are exactly the backoffs: each immediately follows
a call whose outcome was a transient (non-abandoning) error and lasts
`400·2^(attempt-1)` ms. -/
def sleepsWellFormed (gen : String → Nat → LLMOutcome) : List GenEvent → Bool
  | [] => true
  | [.call _ _] => true
  | .call m a :: .sleep ms :: rest =>
    (ms == 400 * 2 ^ (a - 1)) &&
    (match gen m a with
     | .ok _ => false
     | .err e => isTransientError e &&
        !(isModelUnavailableError e || isQuotaExhaustedError e)) &&
    sleepsWellFormed gen rest
  | .call _ _ :: rest => sleepsWellFormed gen rest
  | .sleep _ :: _ => false

theorem callCount_nil (m : String) : callCount m [] = 0 := rfl

theorem callCount_cons_call (m model : String) (a : Nat) (evs : List GenEvent) :
    callCount m (.call model a :: evs) =
      (if model = m then 1 else 0) + callCount m evs := by
  unfold callCount
  rw [List.filter_cons]
  by_cases h : model = m
  · simp [h, Nat.add_comm]
  · simp [h]

theorem callCount_cons_sleep (m : String) (ms : Nat) (evs : List GenEvent) :
    callCount m (.sleep ms :: evs) = callCount m evs := by
  unfold callCount
  rw [List.filter_cons]
  simp

theorem callCount_append (m : String) (t1 t2 : List GenEvent) :
    callCount m (t1 ++ t2) = callCount m t1 + callCount m t2 := by
  unfold callCount
  rw [List.filter_append, List.length_append]

theorem callCount_single (m model : String) (a : Nat) :
    callCount m [.call model a] ≤ 1 := by
  rw [show ([GenEvent.call model a] : List GenEvent) = .call model a :: [] from rfl,
    callCount_cons_call, callCount_nil]
  split <;> omega

theorem runAttempts_starts (gen : String → Nat → LLMOutcome) (model : String)
    (attempt fuel : Nat) :
    ∃ rest, (runAttempts gen model attempt fuel).2.1 = .call model attempt :: rest := by
  unfold runAttempts
  cases hgen : gen model attempt with
  | ok t => exact ⟨[], rfl⟩
  | err e =>
    dsimp only
    by_cases h : (isModelUnavailableError e || isQuotaExhaustedError e) = true
    · rw [if_pos h]
      exact ⟨[], rfl⟩
    · rw [if_neg h]
      cases fuel with
      | zero => exact ⟨[], rfl⟩
      | succ fuel' =>
        dsimp only
        by_cases ht : isTransientError e = true
        · rw [if_pos ht]
          exact ⟨_, rfl⟩
        · rw [if_neg ht]
          exact ⟨[], rfl⟩

theorem runAttempts_calls (gen : String → Nat → LLMOutcome) (model : String)
    (fuel : Nat) : ∀ attempt, ∀ ev ∈ (runAttempts gen model attempt fuel).2.1,
    (∃ a, ev = .call model a ∧ attempt ≤ a) ∨ ∃ ms, ev = .sleep ms := by
  induction fuel with
  | zero =>
    intro attempt ev hev
    unfold runAttempts at hev
    cases hgen : gen model attempt <;> rw [hgen] at hev
    · simp at hev
      exact Or.inl ⟨attempt, hev, le_refl _⟩
    · dsimp only at hev
      split_ifs at hev <;>
        · simp at hev
          exact Or.inl ⟨attempt, hev, le_refl _⟩
  | succ fuel' ih =>
    intro attempt ev hev
    unfold runAttempts at hev
    cases hgen : gen model attempt <;> rw [hgen] at hev
    · simp at hev
      exact Or.inl ⟨attempt, hev, le_refl _⟩
    · dsimp only at hev
      split_ifs at hev with h1 h2
      · simp at hev
        exact Or.inl ⟨attempt, hev, le_refl _⟩
      · rcases List.mem_cons.mp hev with rfl | hev'
        · exact Or.inl ⟨attempt, rfl, le_refl _⟩
        · rcases List.mem_cons.mp hev' with rfl | hev''
          · exact Or.inr ⟨_, rfl⟩
          · rcases ih (attempt + 1) ev hev'' with ⟨a, ha, hle⟩ | hsleep
            · exact Or.inl ⟨a, ha, le_trans (Nat.le_succ _) hle⟩
            · exact Or.inr hsleep
      · simp at hev
        exact Or.inl ⟨attempt, hev, le_refl _⟩

theorem runAttempts_callCount (gen : String → Nat → LLMOutcome) (model : String)
    (fuel : Nat) : ∀ attempt m,
    callCount m (runAttempts gen model attempt fuel).2.1 ≤ fuel + 1 := by
  induction fuel with
  | zero =>
    intro attempt m
    unfold runAttempts
    cases hgen : gen model attempt
    · exact callCount_single m model attempt
    · dsimp only
      split_ifs <;> exact callCount_single m model attempt
  | succ fuel' ih =>
    intro attempt m
    unfold runAttempts
    cases hgen : gen model attempt
    · exact le_trans (callCount_single m model attempt) (by omega)
    · dsimp only
      split_ifs with h1 h2
      · exact le_trans (callCount_single m model attempt) (by omega)
      · rw [callCount_cons_call, callCount_cons_sleep]
        have hih := ih (attempt + 1) m
        split <;> omega
      · exact le_trans (callCount_single m model attempt) (by omega)

theorem runAttempts_callCount_other (gen : String → Nat → LLMOutcome) (model : String)
    (attempt fuel : Nat) (m : String) (hm : m ≠ model) :
    callCount m (runAttempts gen model attempt fuel).2.1 = 0 := by
  unfold callCount
  rw [List.length_eq_zero, List.filter_eq_nil_iff]
  intro ev hev
  rcases runAttempts_calls gen model fuel attempt ev hev with ⟨a, rfl, _⟩ | ⟨ms, rfl⟩
  · simpa using fun h => hm h.symm
  · simp

theorem runAttempts_wf (gen : String → Nat → LLMOutcome) (model : String)
    (fuel : Nat) : ∀ attempt,
    sleepsWellFormed gen (runAttempts gen model attempt fuel).2.1 = true := by
  induction fuel with
  | zero =>
    intro attempt
    unfold runAttempts
    cases hgen : gen model attempt
    · rfl
    · dsimp only
      split_ifs <;> rfl
  | succ fuel' ih =>
    intro attempt
    unfold runAttempts
    cases hgen : gen model attempt
    · rfl
    · dsimp only
      split_ifs with h1 h2
      · rfl
      · obtain ⟨rest, hrest⟩ := runAttempts_starts gen model (attempt + 1) fuel'
        rw [hrest]
        show sleepsWellFormed gen
          (.call model attempt :: .sleep (400 * 2 ^ (attempt - 1)) ::
            .call model (attempt + 1) :: rest) = true
        unfold sleepsWellFormed
        rw [hgen]
        have hih := ih (attempt + 1)
        rw [hrest] at hih
        simp [h2, h1, hih]
      · rfl

theorem runAttempts_success (gen : String → Nat → LLMOutcome) (model : String)
    (fuel : Nat) : ∀ attempt t,
    (runAttempts gen model attempt fuel).1 = some t →
    ∃ pre a, (runAttempts gen model attempt fuel).2.1 = pre ++ [.call model a] ∧
      gen model a = .ok t ∧
      ∀ m' a', .call m' a' ∈ pre → ∃ e, gen m' a' = .err e := by
  induction fuel with
  | zero =>
    intro attempt t hsome
    unfold runAttempts at hsome ⊢
    cases hgen : gen model attempt <;> rw [hgen] at hsome <;> dsimp only at hsome ⊢
    · refine ⟨[], attempt, by simp, ?_, by simp⟩
      rw [hgen]
      simpa using hsome
    · split_ifs at hsome ⊢
  | succ fuel' ih =>
    intro attempt t hsome
    unfold runAttempts at hsome ⊢
    cases hgen : gen model attempt with
    | ok t0 =>
      rw [hgen] at hsome
      dsimp only at hsome ⊢
      refine ⟨[], attempt, by simp, ?_, by simp⟩
      rw [hgen]
      simpa using hsome
    | err e =>
      rw [hgen] at hsome
      dsimp only at hsome ⊢
      by_cases h1 : (isModelUnavailableError e || isQuotaExhaustedError e) = true
      · rw [if_pos h1] at hsome
        simp at hsome
      · rw [if_neg h1] at hsome ⊢
        by_cases h2 : isTransientError e = true
        · rw [if_pos h2] at hsome ⊢
          dsimp only at hsome ⊢
          obtain ⟨pre, a, htrace, hok, hpre⟩ := ih (attempt + 1) t hsome
          refine ⟨.call model attempt :: .sleep (400 * 2 ^ (attempt - 1)) :: pre, a, ?_, hok, ?_⟩
          · rw [htrace]
            simp
          · intro m' a' hmem
            rcases List.mem_cons.mp hmem with heq | hmem'
            · cases heq
              exact ⟨_, hgen⟩
            · rcases List.mem_cons.mp hmem' with heq | hmem''
              · cases heq
              · exact hpre m' a' hmem''
        · rw [if_neg h2] at hsome
          simp at hsome

theorem runAttempts_failure (gen : String → Nat → LLMOutcome) (model : String)
    (fuel : Nat) : ∀ attempt,
    (runAttempts gen model attempt fuel).1 = none →
    ∀ m' a', .call m' a' ∈ (runAttempts gen model attempt fuel).2.1 →
      ∃ e, gen m' a' = .err e := by
  induction fuel with
  | zero =>
    intro attempt hnone m' a' hmem
    unfold runAttempts at hnone hmem
    cases hgen : gen model attempt <;> rw [hgen] at hnone hmem
    · simp at hnone
    · dsimp only at hmem
      split_ifs at hmem <;>
        · simp at hmem
          rw [hmem.1, hmem.2]
          exact ⟨_, hgen⟩
  | succ fuel' ih =>
    intro attempt hnone m' a' hmem
    unfold runAttempts at hnone hmem
    cases hgen : gen model attempt <;> rw [hgen] at hnone hmem
    · simp at hnone
    · dsimp only at hnone hmem
      split_ifs at hnone hmem with h1 h2
      · simp at hmem
        rw [hmem.1, hmem.2]
        exact ⟨_, hgen⟩
      · rcases List.mem_cons.mp hmem with heq | hmem'
        · cases heq
          exact ⟨_, hgen⟩
        · rcases List.mem_cons.mp hmem' with heq | hmem''
          · cases heq
          · exact ih (attempt + 1) hnone m' a' hmem''
      · simp at hmem
        rw [hmem.1, hmem.2]
        exact ⟨_, hgen⟩

theorem runAttempts_abandon (gen : String → Nat → LLMOutcome) (model : String)
    (fuel : Nat) : ∀ attempt a e,
    gen model a = .err e →
    (isModelUnavailableError e || isQuotaExhaustedError e) = true →
    .call model a ∈ (runAttempts gen model attempt fuel).2.1 →
    ∀ a', a < a' → .call model a' ∉ (runAttempts gen model attempt fuel).2.1 := by
  induction fuel with
  | zero =>
    intro attempt a e hgenerr habandon hmem a' hlt hmem'
    unfold runAttempts at hmem hmem'
    cases hgen : gen model attempt <;> rw [hgen] at hmem hmem'
    · simp at hmem hmem'
      omega
    · dsimp only at hmem hmem'
      split_ifs at hmem hmem' <;> · simp at hmem hmem'; omega
  | succ fuel' ih =>
    intro attempt a e hgenerr habandon hmem a' hlt hmem'
    unfold runAttempts at hmem hmem'
    cases hgen : gen model attempt <;> rw [hgen] at hmem hmem'
    · simp at hmem hmem'
      omega
    · dsimp only at hmem hmem'
      split_ifs at hmem hmem' with h1 h2
      · simp at hmem hmem'
        omega
      · -- transient retry branch: the abandoning error cannot be this attempt
        rcases List.mem_cons.mp hmem with heq | hmem2
        · cases heq
          rw [hgenerr] at hgen
          cases hgen
          rw [habandon] at h1
          exact h1 rfl
        · rcases List.mem_cons.mp hmem2 with heq | hmem3
          · cases heq
          · rcases List.mem_cons.mp hmem' with heq | hmem2'
            · cases heq
              rcases runAttempts_calls gen model fuel' (attempt + 1) _ hmem3 with
                ⟨b, hb, hble⟩ | ⟨ms, hms⟩
              · cases hb
                omega
              · cases hms
            · rcases List.mem_cons.mp hmem2' with heq | hmem3'
              · cases heq
              · exact ih (attempt + 1) a e hgenerr habandon hmem3 a' hlt hmem3'
      · simp at hmem hmem'
        omega

theorem sleepsWellFormed_cons_call_call (gen : String → Nat → LLMOutcome)
    (m : String) (a : Nat) (m' : String) (a' : Nat) (rest : List GenEvent) :
    sleepsWellFormed gen (.call m a :: .call m' a' :: rest) =
      sleepsWellFormed gen (.call m' a' :: rest) := rfl

theorem sleepsWellFormed_append (gen : String → Nat → LLMOutcome) (t1 t2 : List GenEvent)
    (h1 : sleepsWellFormed gen t1 = true) (h2 : sleepsWellFormed gen t2 = true)
    (hstart : t2 = [] ∨ ∃ m a t2', t2 = .call m a :: t2') :
    sleepsWellFormed gen (t1 ++ t2) = true := by
  induction t1 using sleepsWellFormed.induct gen with
  | case1 => simpa using h2
  | case2 m a =>
    rcases hstart with rfl | ⟨m', a', t2', rfl⟩
    · simpa using h1
    · show sleepsWellFormed gen (.call m a :: .call m' a' :: t2') = true
      unfold sleepsWellFormed
      exact h2
  | case3 m a ms rest ih =>
    unfold sleepsWellFormed at h1
    rw [Bool.and_eq_true, Bool.and_eq_true] at h1
    show sleepsWellFormed gen (.call m a :: .sleep ms :: (rest ++ t2)) = true
    unfold sleepsWellFormed
    rw [Bool.and_eq_true, Bool.and_eq_true]
    exact ⟨⟨h1.1.1, h1.1.2⟩, ih h1.2⟩
  | case4 m a rest hne hnosleep ih =>
    cases rest with
    | nil => exact absurd rfl hne
    | cons ev rest'' =>
      cases ev with
      | sleep ms => exact absurd rfl (hnosleep ms rest'')
      | call m' a' =>
        rw [sleepsWellFormed_cons_call_call] at h1
        show sleepsWellFormed gen (.call m a :: ((.call m' a' :: rest'') ++ t2)) = true
        rw [List.cons_append, sleepsWellFormed_cons_call_call]
        exact ih h1
  | case5 ms rest => simp [sleepsWellFormed] at h1

theorem cascadeGo_calls (gen : String → Nat → LLMOutcome) (maxRetries : Nat)
    (primary : String) (cands : List String) :
    ∀ ev ∈ (cascadeGo gen maxRetries primary cands).2,
      (∃ m a, ev = .call m a ∧ m ∈ cands) ∨ ∃ ms, ev = .sleep ms := by
  induction cands with
  | nil => intro ev hev; simp [cascadeGo] at hev
  | cons model rest ih =>
    intro ev hev
    unfold cascadeGo at hev
    dsimp only at hev
    cases hr : (runAttempts gen model 1 (maxRetries - 1)).1 <;> rw [hr] at hev <;>
      dsimp only at hev
    · rw [List.mem_append] at hev
      rcases hev with hev | hev
      · rcases runAttempts_calls gen model (maxRetries - 1) 1 ev hev with ⟨a, rfl, _⟩ | h
        · exact Or.inl ⟨model, a, rfl, List.mem_cons_self _ _⟩
        · exact Or.inr h
      · rcases ih ev hev with ⟨m, a, rfl, hm⟩ | h
        · exact Or.inl ⟨m, a, rfl, List.mem_cons_of_mem _ hm⟩
        · exact Or.inr h
    · rcases runAttempts_calls gen model (maxRetries - 1) 1 ev hev with ⟨a, rfl, _⟩ | h
      · exact Or.inl ⟨model, a, rfl, List.mem_cons_self _ _⟩
      · exact Or.inr h

theorem cascadeGo_callCount_not_mem (gen : String → Nat → LLMOutcome) (maxRetries : Nat)
    (primary : String) (cands : List String) (m : String) (hm : m ∉ cands) :
    callCount m (cascadeGo gen maxRetries primary cands).2 = 0 := by
  unfold callCount
  rw [List.length_eq_zero, List.filter_eq_nil_iff]
  intro ev hev
  rcases cascadeGo_calls gen maxRetries primary cands ev hev with ⟨m', a, rfl, hm'⟩ | ⟨ms, rfl⟩
  · simp only [beq_iff_eq]
    intro h
    rw [h] at hm'
    exact absurd hm' hm
  · simp

theorem cascadeGo_callCount (gen : String → Nat → LLMOutcome) (maxRetries : Nat)
    (hmr : 0 < maxRetries) (primary : String) (cands : List String)
    (hnodup : cands.Nodup) (m : String) :
    callCount m (cascadeGo gen maxRetries primary cands).2 ≤ maxRetries := by
  induction cands with
  | nil => simp [cascadeGo, callCount]
  | cons model rest ih =>
    rw [List.nodup_cons] at hnodup
    have hrun : callCount m (runAttempts gen model 1 (maxRetries - 1)).2.1 ≤ maxRetries := by
      by_cases hmm : m = model
      · subst hmm
        have := runAttempts_callCount gen m (maxRetries - 1) 1 m
        omega
      · rw [runAttempts_callCount_other gen model 1 (maxRetries - 1) m hmm]
        exact Nat.zero_le _
    unfold cascadeGo
    dsimp only
    cases hr : (runAttempts gen model 1 (maxRetries - 1)).1 <;> dsimp only
    · rw [callCount_append]
      by_cases hmm : m = model
      · subst hmm
        rw [cascadeGo_callCount_not_mem gen maxRetries primary rest m hnodup.1]
        omega
      · rw [runAttempts_callCount_other gen model 1 (maxRetries - 1) m hmm]
        simpa using ih hnodup.2
    · exact hrun

theorem cascadeGo_wf (gen : String → Nat → LLMOutcome) (maxRetries : Nat)
    (primary : String) (cands : List String) :
    sleepsWellFormed gen (cascadeGo gen maxRetries primary cands).2 = true := by
  induction cands with
  | nil => rfl
  | cons model rest ih =>
    unfold cascadeGo
    dsimp only
    cases hr : (runAttempts gen model 1 (maxRetries - 1)).1 <;> dsimp only
    · apply sleepsWellFormed_append gen _ _ (runAttempts_wf gen model (maxRetries - 1) 1) ih
      cases hrest : rest with
      | nil => exact Or.inl (by simp [hrest, cascadeGo])
      | cons model' rest' =>
        obtain ⟨r2, hr2⟩ := runAttempts_starts gen model' 1 (maxRetries - 1)
        unfold cascadeGo
        dsimp only
        cases (runAttempts gen model' 1 (maxRetries - 1)).1 <;> dsimp only
        · exact Or.inr ⟨model', 1, _, by rw [hr2]; rfl⟩
        · exact Or.inr ⟨model', 1, r2, hr2⟩
    · exact runAttempts_wf gen model (maxRetries - 1) 1

theorem cascadeGo_success (gen : String → Nat → LLMOutcome) (maxRetries : Nat)
    (primary : String) (cands : List String) (r : GenResult) :
    (cascadeGo gen maxRetries primary cands).1 = some r →
    ∃ pre a, (cascadeGo gen maxRetries primary cands).2 = pre ++ [.call r.modelUsed a] ∧
      gen r.modelUsed a = .ok r.text ∧
      (∀ m' a', .call m' a' ∈ pre → ∃ e, gen m' a' = .err e) ∧
      r.modelUsed ∈ cands := by
  induction cands with
  | nil => intro h; simp [cascadeGo] at h
  | cons model rest ih =>
    intro h
    unfold cascadeGo at h ⊢
    dsimp only at h ⊢
    cases hr : (runAttempts gen model 1 (maxRetries - 1)).1 <;> rw [hr] at h <;>
      dsimp only at h ⊢
    · obtain ⟨pre, a, htrace, hok, hpre, hmem⟩ := ih h
      refine ⟨(runAttempts gen model 1 (maxRetries - 1)).2.1 ++ pre, a, ?_, hok, ?_,
        List.mem_cons_of_mem _ hmem⟩
      · rw [htrace, List.append_assoc]
      · intro m' a' hmem'
        rw [List.mem_append] at hmem'
        rcases hmem' with hmem' | hmem'
        · exact runAttempts_failure gen model (maxRetries - 1) 1 hr m' a' hmem'
        · exact hpre m' a' hmem'
    · cases h
      obtain ⟨pre, a, htrace, hok, hpre⟩ := runAttempts_success gen model (maxRetries - 1) 1 _ hr
      exact ⟨pre, a, htrace, hok, hpre, List.mem_cons_self _ _⟩

theorem cascadeGo_abandon (gen : String → Nat → LLMOutcome) (maxRetries : Nat)
    (primary : String) (cands : List String) (hnodup : cands.Nodup)
    (m : String) (a : Nat) (e : String)
    (hgen : gen m a = .err e)
    (habandon : (isModelUnavailableError e || isQuotaExhaustedError e) = true)
    (hmem : .call m a ∈ (cascadeGo gen maxRetries primary cands).2) :
    ∀ a', a < a' → .call m a' ∉ (cascadeGo gen maxRetries primary cands).2 := by
  induction cands with
  | nil => simp [cascadeGo] at hmem
  | cons model rest ih =>
    rw [List.nodup_cons] at hnodup
    intro a' hlt hmem'
    have hother : ∀ b, m ≠ model → .call m b ∉ (runAttempts gen model 1 (maxRetries - 1)).2.1 := by
      intro b hne hb
      rcases runAttempts_calls gen model (maxRetries - 1) 1 _ hb with ⟨c, hc, _⟩ | ⟨ms, hms⟩
      · cases hc
        exact hne rfl
      · cases hms
    have hnotrest : ∀ b, m = model → .call m b ∉ (cascadeGo gen maxRetries primary rest).2 := by
      intro b heq hb
      rcases cascadeGo_calls gen maxRetries primary rest _ hb with ⟨m2, a2, hm2, hmm2⟩ | ⟨ms, hms⟩
      · cases hm2
        rw [heq] at hmm2
        exact hnodup.1 hmm2
      · cases hms
    unfold cascadeGo at hmem hmem'
    dsimp only at hmem hmem'
    cases hr : (runAttempts gen model 1 (maxRetries - 1)).1 <;> rw [hr] at hmem hmem' <;>
      dsimp only at hmem hmem'
    · rw [List.mem_append] at hmem hmem'
      by_cases hmm : m = model
      · subst hmm
        rcases hmem with hmem | hmem
        · rcases hmem' with hmem' | hmem'
          · exact runAttempts_abandon gen m (maxRetries - 1) 1 a e hgen habandon hmem a' hlt hmem'
          · exact hnotrest a' rfl hmem'
        · exact hnotrest a rfl hmem
      · rcases hmem with hmem | hmem
        · exact hother a hmm hmem
        · rcases hmem' with hmem' | hmem'
          · exact hother a' hmm hmem'
          · exact ih hnodup.2 hmem a' hlt hmem'
    · by_cases hmm : m = model
      · subst hmm
        exact runAttempts_abandon gen m (maxRetries - 1) 1 a e hgen habandon hmem a' hlt hmem'
      · exact hother a hmm hmem

theorem dedupFirstAux_cons (seen : List String) (x : String) (xs : List String) :
    dedupFirstAux seen (x :: xs) =
      if x ∈ seen then dedupFirstAux seen xs else x :: dedupFirstAux (x :: seen) xs := rfl

theorem generateTextWithFallback_unavailable_scenario
    (gen : String → Nat → LLMOutcome) (config : ModelConfig)
    (p e t : String) (hp : p ≠ "") (hc : config.cost ≠ "") (hpc : p ≠ config.cost)
    (he : gen p 1 = .err e) (hun : isModelUnavailableError e = true)
    (ht : gen config.cost 1 = .ok t) :
    generateTextWithFallback gen config (some p) 3 =
      (some ⟨t, config.cost, true⟩, [.call p 1, .call config.cost 1]) := by
  have hcp : config.cost ≠ p := fun h => hpc h.symm
  have hfilter : [p, config.cost, config.fallback].filter (· ≠ "") =
      p :: config.cost :: [config.fallback].filter (· ≠ "") := by
    rw [List.filter_cons, List.filter_cons]
    simp [hp, hc]
  have hded : dedupFirst (p :: config.cost :: [config.fallback].filter (· ≠ "")) =
      p :: config.cost ::
        dedupFirstAux [config.cost, p] ([config.fallback].filter (· ≠ "")) := by
    rw [dedupFirst, dedupFirstAux_cons, if_neg (by simp),
      dedupFirstAux_cons, if_neg (by simp [hcp])]
  have hrun1 : runAttempts gen p 1 (3 - 1) = (none, [.call p 1], some e) := by
    unfold runAttempts
    rw [he]
    dsimp only
    rw [if_pos (by rw [hun]; rfl)]
  have hrun2 : runAttempts gen config.cost 1 (3 - 1) =
      (some t, [.call config.cost 1], none) := by
    unfold runAttempts
    rw [ht]
  have hc2 : cascadeGo gen 3 p
      (config.cost :: dedupFirstAux [config.cost, p] ([config.fallback].filter (· ≠ ""))) =
      (some ⟨t, config.cost, true⟩, [.call config.cost 1]) := by
    unfold cascadeGo
    dsimp only
    rw [hrun2]
    dsimp only
    rw [show decide (config.cost ≠ p) = true from by simp [hcp]]
  unfold generateTextWithFallback getModelCandidates
  dsimp only
  rw [show jsOr (some p) config.primary = p from by simp [jsOr, hp], hfilter, hded]
  dsimp only [List.headD]
  unfold cascadeGo
  dsimp only
  rw [hrun1]
  dsimp only
  rw [hc2]
  rfl

/-- Claim C3: model cascade and retry policy.  With the three-name
candidate list deduplicated in order, the cascade run with `maxRetries=3`:
(i) iterates `[preferred, cost, fallback]` (deduplicated, empty names
dropped); (ii) calls each model at most 3 times; (iii) every recorded
sleep immediately follows a transiently-failed call `(m, a)` and lasts
`400·2^(a-1)` ms; (iv) on success the trace is a sequence of failed
calls followed by one final successful call of the returned
`modelUsed`, which is one of the candidates — generation returns
immediately on the first successful attempt; (v) after a
model-unavailable or quota-exhausted error on attempt `a` of a model, no
later attempt of that model occurs; (vi) in particular, when the
preferred model always fails as unavailable and the cost model succeeds,
the result carries the cost model's text with `modelUsed` the cost
model, after exactly one call to each. -/
theorem C3_model_cascade (gen : String → Nat → LLMOutcome) (config : ModelConfig)
    (preferredModel : Option String) :
    (jsOr preferredModel config.primary ≠ "" → config.cost ≠ "" → config.fallback ≠ "" →
      getModelCandidates config preferredModel =
        dedupFirst [jsOr preferredModel config.primary, config.cost, config.fallback]) ∧
    (∀ m, callCount m (generateTextWithFallback gen config preferredModel 3).2 ≤ 3) ∧
    sleepsWellFormed gen (generateTextWithFallback gen config preferredModel 3).2 = true ∧
    (∀ r, (generateTextWithFallback gen config preferredModel 3).1 = some r →
      ∃ pre a, (generateTextWithFallback gen config preferredModel 3).2 =
          pre ++ [.call r.modelUsed a] ∧
        gen r.modelUsed a = .ok r.text ∧
        (∀ m' a', .call m' a' ∈ pre → ∃ e, gen m' a' = .err e) ∧
        r.modelUsed ∈ getModelCandidates config preferredModel) ∧
    (∀ m a e, gen m a = .err e →
      (isModelUnavailableError e || isQuotaExhaustedError e) = true →
      .call m a ∈ (generateTextWithFallback gen config preferredModel 3).2 →
      ∀ a', a < a' → .call m a' ∉ (generateTextWithFallback gen config preferredModel 3).2) ∧
    (∀ p e t, p ≠ "" → config.cost ≠ "" → p ≠ config.cost →
      gen p 1 = .err e → isModelUnavailableError e = true →
      gen config.cost 1 = .ok t →
      generateTextWithFallback gen config (some p) 3 =
        (some ⟨t, config.cost, true⟩, [.call p 1, .call config.cost 1])) := by
  refine ⟨?_, ?_, ?_, ?_, ?_, ?_⟩
  · intro h1 h2 h3
    unfold getModelCandidates
    dsimp only
    congr 1
    apply List.filter_eq_self.mpr
    intro a ha
    rcases List.mem_cons.mp ha with rfl | ha'
    · simpa using h1
    · rcases List.mem_cons.mp ha' with rfl | ha''
      · simpa using h2
      · rcases List.mem_cons.mp ha'' with rfl | ha'''
        · simpa using h3
        · simp at ha'''
  · intro m
    exact cascadeGo_callCount gen 3 (by norm_num) _ _ (dedupFirst_nodup _) m
  · exact cascadeGo_wf gen 3 _ _
  · intro r hr
    exact cascadeGo_success gen 3 _ _ r hr
  · intro m a e h1 h2 h3
    exact cascadeGo_abandon gen 3 _ _ (dedupFirst_nodup _) m a e h1 h2 h3
  · intro p e t h1 h2 h3 h4 h5 h6
    exact generateTextWithFallback_unavailable_scenario gen config p e t h1 h2 h3 h4 h5 h6

/-! ## Explanation memoizer flows
(`src/ai/flows/talmud-ai-chatbot-explanation.ts`)

Both versions of `talmudAIChatbotExplanationFlow` found in the repository
are embedded: the legacy-era version (file lines 67-217: opaque-key cache
only, with the double legacy write-back) and the structured "rabanout"
version (file lines 315-488: structured path first, legacy read-migration,
structured write only).  The store is explicit (association lists; a
prepended entry is the latest write), the LLM is the oracle
`oracle : prompt → model → attempt → LLMOutcome`, and the SHA-256 of
`node:crypto` (an external dependency) is an abstract hash parameter
`sha`.  `durationMs` (wall clock) is not modelled. -/

def PROMPT_VERSION : String := "v3.4-rabbanut"

structure FlowInput where
  currentSegment : String
  previousSegments : List String
  previousExplanations : List String
  modelName : Option String
  normalizedTref : String
  chunkOrder : Nat
  rawHash : String
  sourceKey : String
  companionText : Option String
  deriving Repr, DecidableEq

structure FlowOutput where
  explanation : String
  modelUsed : String
  cacheHit : Bool
  promptVersion : String
  validated : Bool
  deriving Repr, DecidableEq

/-- The `rabanout/...` record (file lines 454-465); `validated` is
optional on read (`data.validated ?? true`). -/
structure RabanutRecord where
  rawText : String
  explanationText : String
  rawHash : String
  sourceKey : String
  chunkOrder : Nat
  modelName : String
  promptVersion : String
  validated : Option Bool
  deriving Repr, DecidableEq

/-- An `explanationCacheEntries` record (file lines 182-193). -/
structure LegacyRecord where
  normalizedTref : String
  sourceKey : String
  chunkOrder : Nat
  explanationText : String
  modelName : String
  promptVersion : String
  validated : Option Bool
  deriving Repr, DecidableEq

structure FlowStore where
  rabanut : List (String × RabanutRecord)
  legacy : List (String × LegacyRecord)
  deriving Repr, DecidableEq

def storeGet {α : Type} (l : List (String × α)) (k : String) : Option α :=
  (l.find? (fun p => p.1 == k)).map (fun p => p.2)

def storeSet {α : Type} (l : List (String × α)) (k : String) (v : α) :
    List (String × α) := (k, v) :: l

theorem storeGet_set_self {α : Type} (l : List (String × α)) (k : String) (v : α) :
    storeGet (storeSet l k v) k = some v := by
  unfold storeGet storeSet
  rw [List.find?_cons_of_pos _ (by simp)]
  rfl

theorem storeGet_set_other {α : Type} (l : List (String × α)) (k k' : String) (v : α)
    (h : k' ≠ k) : storeGet (storeSet l k v) k' = storeGet l k' := by
  unfold storeGet storeSet
  rw [List.find?_cons_of_neg _ (by simpa using fun hh => h hh.symm)]

/-- Hebrew block U+0590..U+05FF counted by `validateHebrewOutput`. -/
def isHebrewCodepoint (c : Char) : Bool := 0x0590 ≤ c.toNat && c.toNat ≤ 0x05FF

/-- `validateHebrewOutput` (file lines 264-271): non-empty after trim and
Hebrew-character ratio at least `HEBREW_RATIO_THRESHOLD = 0.7`.  The
ratio comparison `hebrew / max(len, 1) ≥ 0.7` is stated in the
equivalent cross-multiplied integer form (the denominator is positive);
`validateHebrewOutput_ratio` below proves the equivalence with the
rational-division form. -/
def validateHebrewOutput (text : String) : Bool :=
  if jsTrim text = "" then false
  else 7 * max text.length 1 ≤ 10 * (text.toList.filter isHebrewCodepoint).length

/-- The integer comparison in `validateHebrewOutput` is the source's
ratio test `hebrewChars.length / Math.max(text.length, 1) ≥ 0.7`. -/
theorem validateHebrewOutput_ratio (text : String) (h : jsTrim text ≠ "") :
    validateHebrewOutput text = true ↔
      (7 : ℚ) / 10 ≤
        ((text.toList.filter isHebrewCodepoint).length : ℚ) /
          ((max text.length 1 : ℕ) : ℚ) := by
  unfold validateHebrewOutput
  rw [if_neg h, decide_eq_true_iff]
  have hb : (0 : ℚ) < ((max text.length 1 : ℕ) : ℚ) := by
    have h1 : 0 < max text.length 1 := by omega
    exact_mod_cast h1
  rw [div_le_div_iff₀ (by norm_num) hb, ← Nat.cast_le (α := ℚ)]
  push_cast
  constructor <;> intro hle <;> linarith

/-- `SOURCE_LABELS[...] || 'שולחן ערוך'` (file lines 233-237). -/
def sourceLabel (sourceKey : String) : String :=
  if sourceKey = "tur" then "טור"
  else if sourceKey = "beit_yosef" then "בית יוסף"
  else if sourceKey = "shulchan_arukh" then "שולחן ערוך"
  else "שולחן ערוך"

/-- The N-1 context block (file lines 391-393). -/
def contextPrompt (input : FlowInput) : String :=
  if input.previousSegments ≠ [] then
    "הקשר קודם (N-1 בלבד):\nמקור: " ++ input.previousSegments.headD "" ++
      "\nביאור: " ++ input.previousExplanations.headD "" ++ "\n---\n"
  else ""

/-- The companion (Mishnah Berurah) block (file lines 397-399). -/
def companionSection (input : FlowInput) : String :=
  let companion := (input.companionText).getD ""
  if companion ≠ "" then
    "\nמשנה ברורה על הסעיף:\n" ++ companion ++
      "\n\nלאחר ביאור ה" ++ sourceLabel input.sourceKey ++
      ", הוסף סעיף נפרד בכותרת \"משנה ברורה:\" וציין בנקודות קצרות את חידושי המשנה ברורה, הערותיו, ופסיקותיו המעשיות. ציין מספר ס\"ק כשידוע.\n"
  else ""

/-- The base explanation prompt (file lines 401-418; byte-identical in
both flow versions). -/
def basePrompt (input : FlowInput) : String :=
  "אתה מסביר תורני מקצועי. הקהל הוא תלמיד המתכונן למבחן רבנות.\nענה בעברית בלבד.\n\nכללים מחייבים:\n1. העתק את כל מילות המקור לפי הסדר, בלי לדלג על אף מילה. הדגש כל מילת מקור בפורמט **bold**.\n2. אחרי כל ביטוי קשה או לא ברור, הוסף הסבר קצר שזורם בצורה טבעית – לא בסוגריים אלא כהמשך ישיר של המשפט. אם הביטוי ברור – אל תוסיף כלום, פשוט המשך למילה הבאה.\n3. קטעים בארמית (ציטוטים מהגמרא או ממקורות אחרים): תרגם והסבר אותם בעברית פשוטה מיד אחרי הציטוט. הארמית לא ברורה לתלמיד – תמיד תסביר אותה.\n4. פתח ראשי תיבות לידם, בלי סוגריים (לדוגמה: **מ\"ב** משנה ברורה).\n5. כשמוזכר פוסק/דעה: ציין מפורש מי אומר, מה הדין שלו, ומהיכן הוא (לדוגמה: **הרמב\"ם** פוסק ש... כמובא ב**טור**).\n6. אם יש מחלוקת: ציין כל שיטה עם שם בעליה, ובסוף כתוב את ההכרעה – מי פוסקים הלכה.\n7. אל תכתוב פתיח, סיום, הערות, או הקדמה. אסור לכתוב דברים כמו \"בטח\", \"הנה\", \"בהצלחה\", \"כתוב בעברית תקנית\". תתחיל ישר עם הטקסט.\n8. אל תוסיף דעות או מקורות שלא מוזכרים בטקסט המקור.\n\n" ++
  contextPrompt input ++ companionSection input ++
  "\nמקור להסבר (" ++ sourceLabel input.sourceKey ++ "):\n" ++
  input.currentSegment ++ "\n\nביאור:"

/-- The repair prompt (file lines 432-438). -/
def repairPrompt (explanation : String) : String :=
  "הטקסט הבא לא עומד בדרישת עברית.\nשכתב אותו בעברית בלבד, עם אותו סדר תוכן והדגשות **bold** למילות מקור.\n\nטקסט לתיקון:\n" ++
  explanation ++ "\n\nטקסט מתוקן:"

/-- The concatenated key data hashed by `generateLegacyCacheKey` /
`generateCacheKey` (identical in both versions). -/
def legacyCacheKeyData (input : FlowInput) (modelName : String) : String :=
  input.sourceKey ++ "|" ++ input.normalizedTref ++ "|" ++ toString input.chunkOrder ++
    "|" ++ input.rawHash ++ "|" ++ PROMPT_VERSION ++ "|" ++ modelName

def generateLegacyCacheKey (sha : String → String) (input : FlowInput)
    (modelName : String) : String := sha (legacyCacheKeyData input modelName)

/-- `^\s+(\d+)(?::(\d+))?$` applied to the remainder after the lazy
section group; the second component is `""` when the optional `:seif`
group is absent. -/
def matchTrefTail (cs : List Char) : Option (String × String) :=
  let ws := cs.takeWhile Char.isWhitespace
  let rest := cs.dropWhile Char.isWhitespace
  if ws = [] then none
  else
    let digits := rest.takeWhile Char.isDigit
    let rest2 := rest.dropWhile Char.isDigit
    if digits = [] then none
    else
      match rest2 with
      | [] => some (String.mk digits, "")
      | ':' :: rest3 =>
        let digits2 := rest3.takeWhile Char.isDigit
        let rest4 := rest3.dropWhile Char.isDigit
        if digits2 ≠ [] ∧ rest4 = [] then some (String.mk digits, String.mk digits2)
        else none
      | _ => none

/-- The lazy `(.+?)` search of `parseTrefForPath`: the shortest non-empty
newline-free prefix whose remainder matches the numeric tail. -/
def parseTrefSearch : List Char → List Char → Option (String × String × String)
  | _, [] => none
  | g1rev, c :: rest =>
    if c = '\n' then none
    else
      match matchTrefTail rest with
      | some (siman, seif) => some (String.mk (c :: g1rev).reverse, siman, seif)
      | none => parseTrefSearch (c :: g1rev) rest

/-- `SECTION_KEY_MAP` (file lines 275-284). -/
def sectionKeyMap (s : String) : Option String :=
  if s = "shulchan arukh, orach chayim" ∨ s = "orach chayim" then some "orach_chayim"
  else if s = "shulchan arukh, yoreh deah" ∨ s = "yoreh deah" then some "yoreh_deah"
  else if s = "shulchan arukh, even haezer" ∨ s = "even haezer" then some "even_haezer"
  else if s = "shulchan arukh, choshen mishpat" ∨ s = "choshen mishpat" then
    some "choshen_mishpat"
  else none

/-- `parseTrefForPath` (file lines 286-295). -/
def parseTrefForPath (normalizedTref : String) : String × String × String :=
  match parseTrefSearch [] normalizedTref.toList with
  | none => ("unknown", "0", "0")
  | some (g1, siman, seif) =>
    let sectionEng := String.mk ((jsTrim g1).toList.map Char.toLower)
    let sectionKey := (sectionKeyMap sectionEng).getD
      (String.mk (underscoreRuns sectionEng.toList))
    (sectionKey, siman, if seif ≠ "" then seif else "0")

/-- `rabanutDocPath` (file lines 298-301). -/
def rabanutDocPath (input : FlowInput) : String :=
  let parsed := parseTrefForPath input.normalizedTref
  "rabanout/" ++ parsed.1 ++ "/simanim/" ++ parsed.2.1 ++ "/seifim/" ++ parsed.2.2 ++
    "/" ++ input.sourceKey ++ "/" ++ toString input.chunkOrder

/-- The structured-cache lookup (file lines 330-345): a record hits only
when its `explanationText` is truthy and its stored `rawHash` and
`promptVersion` both equal the requester's. -/
def rabanutHitOutput (store : FlowStore) (input : FlowInput) : Option FlowOutput :=
  match storeGet store.rabanut (rabanutDocPath input) with
  | some data =>
    if data.explanationText ≠ "" ∧ data.rawHash = input.rawHash ∧
        data.promptVersion = PROMPT_VERSION then
      some ⟨data.explanationText,
        (if data.modelName ≠ "" then data.modelName else "cached"), true,
        data.promptVersion, data.validated.getD true⟩
    else none
  | none => none

/-- The legacy-cache candidate loop (file lines 351-389 / 80-107): the
first candidate model whose opaque key holds a record with truthy
`explanationText` and `modelName`. -/
def legacyLoop (sha : String → String) (input : FlowInput)
    (legacy : List (String × LegacyRecord)) : List String → Option LegacyRecord
  | [] => none
  | m :: ms =>
    match storeGet legacy (generateLegacyCacheKey sha input m) with
    | some data =>
      if data.explanationText ≠ "" ∧ data.modelName ≠ "" then some data
      else legacyLoop sha input legacy ms
    | none => legacyLoop sha input legacy ms

/-- The output produced from a legacy hit (both versions). -/
def legacyHitOutput (data : LegacyRecord) : FlowOutput :=
  ⟨data.explanationText, data.modelName, true,
    (if data.promptVersion ≠ "" then data.promptVersion else PROMPT_VERSION),
    data.validated.getD true⟩

/-- The record migrated into the structured path on a legacy hit
(file lines 364-375). -/
def migratedRecord (input : FlowInput) (data : LegacyRecord) : RabanutRecord :=
  ⟨input.currentSegment, data.explanationText, input.rawHash, input.sourceKey,
    input.chunkOrder, data.modelName,
    (if data.promptVersion ≠ "" then data.promptVersion else PROMPT_VERSION),
    some (data.validated.getD true)⟩

/-- The record written after a full-miss generation (file lines 454-465). -/
def freshRecord (input : FlowInput) (explanation modelUsed : String)
    (validated : Bool) : RabanutRecord :=
  ⟨input.currentSegment, explanation, input.rawHash, input.sourceKey,
    input.chunkOrder, modelUsed, PROMPT_VERSION, some validated⟩

/-- Generation plus the single Hebrew-validation repair round
(file lines 420-450), shared by both flow versions; `.error` models the
rejected promise when every candidate fails. -/
def generatePhase (oracle : String → String → Nat → LLMOutcome) (config : ModelConfig)
    (input : FlowInput) (preferredModel : String) :
    Except String (String × String × Bool) :=
  match (generateTextWithFallback (oracle (basePrompt input)) config
      (some preferredModel) 3).1 with
  | none => .error "generation_failed"
  | some g =>
    if validateHebrewOutput g.text then .ok (g.text, g.modelUsed, true)
    else
      match (generateTextWithFallback (oracle (repairPrompt g.text)) config
          (some g.modelUsed) 2).1 with
      | none => .error "generation_failed"
      | some rg => .ok (rg.text, rg.modelUsed, validateHebrewOutput rg.text)

/-- The structured-cache ("rabanout") version of
`talmudAIChatbotExplanationFlow` (file lines 315-488, also `part_005`):
structured lookup, legacy lookup with migration, then generation with a
structured-path write-back only. -/
def talmudAIChatbotExplanationFlow (oracle : String → String → Nat → LLMOutcome)
    (sha : String → String) (config : ModelConfig) (input : FlowInput)
    (store : FlowStore) : Except String (FlowOutput × FlowStore) :=
  let preferredModel := jsOr input.modelName config.primary
  let candidates := getModelCandidates config (some preferredModel)
  match rabanutHitOutput store input with
  | some out => .ok (out, store)
  | none =>
    match legacyLoop sha input store.legacy candidates with
    | some data =>
      .ok (legacyHitOutput data,
        { store with rabanut := storeSet store.rabanut (rabanutDocPath input)
                                  (migratedRecord input data) })
    | none =>
      match generatePhase oracle config input preferredModel with
      | .error e => .error e
      | .ok (explanation, modelUsed, validated) =>
        .ok (⟨explanation, modelUsed, false, PROMPT_VERSION, validated⟩,
          { store with rabanut := storeSet store.rabanut (rabanutDocPath input)
                                    (freshRecord input explanation modelUsed validated) })

/-- The legacy record written by the legacy-era flow (file lines 182-193). -/
def legacyWrittenRecord (input : FlowInput) (explanation modelUsed : String)
    (validated : Bool) : LegacyRecord :=
  ⟨input.normalizedTref, input.sourceKey, input.chunkOrder, explanation, modelUsed,
    PROMPT_VERSION, some validated⟩

/-- The legacy-era version of `talmudAIChatbotExplanationFlow`
(file lines 67-217): opaque-key lookup only; after a full-miss generation
the result is written under the key of the model actually used and, when
different, also under the key of the originally preferred model
(`cacheKeysToWrite`, lines 173-177). -/
def talmudAIChatbotExplanationFlowLegacyEra
    (oracle : String → String → Nat → LLMOutcome) (sha : String → String)
    (config : ModelConfig) (input : FlowInput) (store : FlowStore) :
    Except String (FlowOutput × FlowStore) :=
  let preferredModel := jsOr input.modelName config.primary
  let candidates := getModelCandidates config (some preferredModel)
  match legacyLoop sha input store.legacy candidates with
  | some data => .ok (legacyHitOutput data, store)
  | none =>
    match generatePhase oracle config input preferredModel with
    | .error e => .error e
    | .ok (explanation, modelUsed, validated) =>
      let keys := if modelUsed ≠ preferredModel then
          dedupFirst [generateLegacyCacheKey sha input modelUsed,
            generateLegacyCacheKey sha input preferredModel]
        else [generateLegacyCacheKey sha input modelUsed]
      .ok (⟨explanation, modelUsed, false, PROMPT_VERSION, validated⟩,
        { store with legacy := keys.foldl (fun l k =>
                                   storeSet l k (legacyWrittenRecord input explanation
                                     modelUsed validated)) store.legacy })

deriving instance DecidableEq for Except

/-- Unfolding of a structured-cache hit. -/
theorem rabanutHitOutput_some (st : FlowStore) (input : FlowInput) (out : FlowOutput)
    (h : rabanutHitOutput st input = some out) :
    ∃ data, storeGet st.rabanut (rabanutDocPath input) = some data ∧
      data.explanationText ≠ "" ∧ data.rawHash = input.rawHash ∧
      data.promptVersion = PROMPT_VERSION ∧
      out = ⟨data.explanationText,
        (if data.modelName ≠ "" then data.modelName else "cached"), true,
        data.promptVersion, data.validated.getD true⟩ := by
  unfold rabanutHitOutput at h
  cases hget : storeGet st.rabanut (rabanutDocPath input) <;> rw [hget] at h <;>
    dsimp only at h
  · exact absurd h (by simp)
  case some data =>
    by_cases hc : data.explanationText ≠ "" ∧ data.rawHash = input.rawHash ∧
        data.promptVersion = PROMPT_VERSION
    · rw [if_pos hc] at h
      exact ⟨data, rfl, hc.1, hc.2.1, hc.2.2, (Option.some_injective _ h).symm⟩
    · rw [if_neg hc] at h
      exact absurd h (by simp)

/-- A store whose record at the structured path satisfies the hit
conditions produces a hit. -/
theorem rabanutHitOutput_eq_some (st : FlowStore) (input : FlowInput)
    (data : RabanutRecord)
    (hget : storeGet st.rabanut (rabanutDocPath input) = some data)
    (h1 : data.explanationText ≠ "") (h2 : data.rawHash = input.rawHash)
    (h3 : data.promptVersion = PROMPT_VERSION) :
    rabanutHitOutput st input = some ⟨data.explanationText,
      (if data.modelName ≠ "" then data.modelName else "cached"), true,
      data.promptVersion, data.validated.getD true⟩ := by
  unfold rabanutHitOutput
  rw [hget]
  dsimp only
  rw [if_pos ⟨h1, h2, h3⟩]

/-- A stale prompt version at the structured path never hits. -/
theorem rabanutHitOutput_eq_none_pv (st : FlowStore) (input : FlowInput)
    (data : RabanutRecord)
    (hget : storeGet st.rabanut (rabanutDocPath input) = some data)
    (h3 : data.promptVersion ≠ PROMPT_VERSION) :
    rabanutHitOutput st input = none := by
  unfold rabanutHitOutput
  rw [hget]
  dsimp only
  rw [if_neg (fun hc => h3 hc.2.2)]

/-- Structured-hit branch of the flow. -/
theorem flow_rabanut_hit (oracle : String → String → Nat → LLMOutcome)
    (sha : String → String) (config : ModelConfig) (input : FlowInput)
    (store : FlowStore) (out : FlowOutput)
    (h : rabanutHitOutput store input = some out) :
    talmudAIChatbotExplanationFlow oracle sha config input store = .ok (out, store) := by
  unfold talmudAIChatbotExplanationFlow
  rw [h]

/-- Legacy-hit branch of the flow: the record is served and migrated to
the structured path. -/
theorem flow_legacy_hit (oracle : String → String → Nat → LLMOutcome)
    (sha : String → String) (config : ModelConfig) (input : FlowInput)
    (store : FlowStore) (data : LegacyRecord)
    (h0 : rabanutHitOutput store input = none)
    (h : legacyLoop sha input store.legacy
      (getModelCandidates config (some (jsOr input.modelName config.primary))) =
        some data) :
    talmudAIChatbotExplanationFlow oracle sha config input store =
      .ok (legacyHitOutput data,
        ⟨storeSet store.rabanut (rabanutDocPath input) (migratedRecord input data),
          store.legacy⟩) := by
  unfold talmudAIChatbotExplanationFlow
  rw [h0]
  dsimp only
  rw [h]

/-- Full-miss branch of the flow: generation succeeded and only the
structured path is written. -/
theorem flow_full_miss (oracle : String → String → Nat → LLMOutcome)
    (sha : String → String) (config : ModelConfig) (input : FlowInput)
    (store : FlowStore) (ex mu : String) (va : Bool)
    (h0 : rabanutHitOutput store input = none)
    (h : legacyLoop sha input store.legacy
      (getModelCandidates config (some (jsOr input.modelName config.primary))) = none)
    (hg : generatePhase oracle config input (jsOr input.modelName config.primary) =
      .ok (ex, mu, va)) :
    talmudAIChatbotExplanationFlow oracle sha config input store =
      .ok (⟨ex, mu, false, PROMPT_VERSION, va⟩,
        ⟨storeSet store.rabanut (rabanutDocPath input) (freshRecord input ex mu va),
          store.legacy⟩) := by
  unfold talmudAIChatbotExplanationFlow
  rw [h0]
  dsimp only
  rw [h]
  dsimp only
  rw [hg]

/-- Hit branch of the legacy-era flow. -/
theorem flowLegacyEra_hit (oracle : String → String → Nat → LLMOutcome)
    (sha : String → String) (config : ModelConfig) (input : FlowInput)
    (store : FlowStore) (data : LegacyRecord)
    (h : legacyLoop sha input store.legacy
      (getModelCandidates config (some (jsOr input.modelName config.primary))) =
        some data) :
    talmudAIChatbotExplanationFlowLegacyEra oracle sha config input store =
      .ok (legacyHitOutput data, store) := by
  unfold talmudAIChatbotExplanationFlowLegacyEra
  dsimp only
  rw [h]

/-- Full-miss branch of the legacy-era flow with its key write-back list. -/
theorem flowLegacyEra_miss (oracle : String → String → Nat → LLMOutcome)
    (sha : String → String) (config : ModelConfig) (input : FlowInput)
    (store : FlowStore) (ex mu : String) (va : Bool)
    (h : legacyLoop sha input store.legacy
      (getModelCandidates config (some (jsOr input.modelName config.primary))) = none)
    (hg : generatePhase oracle config input (jsOr input.modelName config.primary) =
      .ok (ex, mu, va)) :
    talmudAIChatbotExplanationFlowLegacyEra oracle sha config input store =
      .ok (⟨ex, mu, false, PROMPT_VERSION, va⟩,
        ⟨store.rabanut,
          (if mu ≠ jsOr input.modelName config.primary then
            dedupFirst [generateLegacyCacheKey sha input mu,
              generateLegacyCacheKey sha input (jsOr input.modelName config.primary)]
           else [generateLegacyCacheKey sha input mu]).foldl
            (fun l k => storeSet l k (legacyWrittenRecord input ex mu va))
            store.legacy⟩) := by
  unfold talmudAIChatbotExplanationFlowLegacyEra
  dsimp only
  rw [h]
  dsimp only
  rw [hg]

/-- **C1** (amended).  Explanation cache idempotence for the structured
flow: if a first call returns a **non-empty** explanation, a second call
with the identical input (hence identical `(sourceKey, normalizedTref,
chunkOrder)`, `rawHash` and prompt version) on the resulting store
returns the same explanation text and reports `cacheHit = true`; and a
stored structured record counts as a hit only when its stored `rawHash`
and `promptVersion` both equal the requester's.  (The non-emptiness
hypothesis is needed: a generation returning an empty string is written
but can never hit, see the counterexample.) -/
theorem C1_explanation_cache_idempotent
    (oracle : String → String → Nat → LLMOutcome) (sha : String → String)
    (config : ModelConfig) (input : FlowInput) (store : FlowStore)
    (out1 : FlowOutput) (st1 : FlowStore) (out2 : FlowOutput) (st2 : FlowStore)
    (h1 : talmudAIChatbotExplanationFlow oracle sha config input store = .ok (out1, st1))
    (hne : out1.explanation ≠ "")
    (h2 : talmudAIChatbotExplanationFlow oracle sha config input st1 = .ok (out2, st2)) :
    out2.explanation = out1.explanation ∧ out2.cacheHit = true ∧
      (∀ (st : FlowStore) (out : FlowOutput), rabanutHitOutput st input = some out →
        ∃ data, storeGet st.rabanut (rabanutDocPath input) = some data ∧
          data.rawHash = input.rawHash ∧ data.promptVersion = PROMPT_VERSION ∧
          out.explanation = data.explanationText) := by
  have hinv : ∀ (st : FlowStore) (out : FlowOutput), rabanutHitOutput st input = some out →
      ∃ data, storeGet st.rabanut (rabanutDocPath input) = some data ∧
        data.rawHash = input.rawHash ∧ data.promptVersion = PROMPT_VERSION ∧
        out.explanation = data.explanationText := by
    intro st out h
    obtain ⟨data, hget, hx, hh, hp, hout⟩ := rabanutHitOutput_some st input out h
    exact ⟨data, hget, hh, hp, by rw [hout]⟩
  have hmain : out2.explanation = out1.explanation ∧ out2.cacheHit = true := by
    cases hr : rabanutHitOutput store input with
    | some out =>
      rw [flow_rabanut_hit oracle sha config input store out hr] at h1
      simp only [Except.ok.injEq, Prod.mk.injEq] at h1
      obtain ⟨ho, hs⟩ := h1
      subst ho; subst hs
      rw [flow_rabanut_hit oracle sha config input store out hr] at h2
      simp only [Except.ok.injEq, Prod.mk.injEq] at h2
      obtain ⟨ho2, hs2⟩ := h2
      obtain ⟨data, hget, hx, hh, hp, hout⟩ := rabanutHitOutput_some store input out hr
      rw [← ho2]
      subst hout
      exact ⟨rfl, rfl⟩
    | none =>
      cases hl : legacyLoop sha input store.legacy
          (getModelCandidates config (some (jsOr input.modelName config.primary))) with
      | some data =>
        rw [flow_legacy_hit oracle sha config input store data hr hl] at h1
        simp only [Except.ok.injEq, Prod.mk.injEq] at h1
        obtain ⟨ho, hs⟩ := h1
        subst ho; subst hs
        have hdne : data.explanationText ≠ "" := hne
        have hget : storeGet
            ((⟨storeSet store.rabanut (rabanutDocPath input) (migratedRecord input data),
              store.legacy⟩ : FlowStore)).rabanut (rabanutDocPath input) =
              some (migratedRecord input data) :=
          storeGet_set_self store.rabanut (rabanutDocPath input) (migratedRecord input data)
        by_cases hpv :
            (if data.promptVersion ≠ "" then data.promptVersion else PROMPT_VERSION) =
              PROMPT_VERSION
        · rw [flow_rabanut_hit oracle sha config input
            (⟨storeSet store.rabanut (rabanutDocPath input) (migratedRecord input data),
              store.legacy⟩ : FlowStore) _
            (rabanutHitOutput_eq_some
              (⟨storeSet store.rabanut (rabanutDocPath input) (migratedRecord input data),
                store.legacy⟩ : FlowStore) input (migratedRecord input data)
              hget hdne rfl hpv)] at h2
          simp only [Except.ok.injEq, Prod.mk.injEq] at h2
          obtain ⟨ho2, hs2⟩ := h2
          rw [← ho2]
          exact ⟨rfl, rfl⟩
        · have hnone := rabanutHitOutput_eq_none_pv
            (⟨storeSet store.rabanut (rabanutDocPath input) (migratedRecord input data),
              store.legacy⟩ : FlowStore) input (migratedRecord input data) hget hpv
          rw [flow_legacy_hit oracle sha config input
            (⟨storeSet store.rabanut (rabanutDocPath input) (migratedRecord input data),
              store.legacy⟩ : FlowStore) data hnone hl] at h2
          simp only [Except.ok.injEq, Prod.mk.injEq] at h2
          obtain ⟨ho2, hs2⟩ := h2
          rw [← ho2]
          exact ⟨rfl, rfl⟩
      | none =>
        cases hg : generatePhase oracle config input (jsOr input.modelName config.primary)
          with
        | error e =>
          unfold talmudAIChatbotExplanationFlow at h1
          rw [hr] at h1
          dsimp only at h1
          rw [hl] at h1
          dsimp only at h1
          rw [hg] at h1
          exact absurd h1 (by simp)
        | ok trip =>
          obtain ⟨ex, mu, va⟩ := trip
          rw [flow_full_miss oracle sha config input store ex mu va hr hl hg] at h1
          simp only [Except.ok.injEq, Prod.mk.injEq] at h1
          obtain ⟨ho, hs⟩ := h1
          subst ho; subst hs
          have hexne : ex ≠ "" := hne
          have hget : storeGet
              ((⟨storeSet store.rabanut (rabanutDocPath input) (freshRecord input ex mu va),
                store.legacy⟩ : FlowStore)).rabanut (rabanutDocPath input) =
                some (freshRecord input ex mu va) :=
            storeGet_set_self store.rabanut (rabanutDocPath input)
              (freshRecord input ex mu va)
          rw [flow_rabanut_hit oracle sha config input
            (⟨storeSet store.rabanut (rabanutDocPath input) (freshRecord input ex mu va),
              store.legacy⟩ : FlowStore) _
            (rabanutHitOutput_eq_some
              (⟨storeSet store.rabanut (rabanutDocPath input) (freshRecord input ex mu va),
                store.legacy⟩ : FlowStore) input (freshRecord input ex mu va)
              hget hexne rfl rfl)] at h2
          simp only [Except.ok.injEq, Prod.mk.injEq] at h2
          obtain ⟨ho2, hs2⟩ := h2
          rw [← ho2]
          exact ⟨rfl, rfl⟩
  exact ⟨hmain.1, hmain.2, hinv⟩

def cxFlowOracle : String → String → Nat → LLMOutcome := fun _ _ _ => .ok "שלום"

def cxEmptyOracle : String → String → Nat → LLMOutcome := fun _ _ _ => .ok ""

def cxFlowConfig : ModelConfig := ⟨"m-pro", "m-flash", "m-lite", false, 10⟩

def cxFlowInput : FlowInput :=
  ⟨"טקסט", [], [], none, "Shulchan Arukh, Orach Chayim 1:1", 0, "h1", "shulchan_arukh",
    none⟩

def cxRabanutPath : String := "rabanout/orach_chayim/simanim/1/seifim/1/shulchan_arukh/0"

def cxOut1 : FlowOutput := ⟨"שלום", "m-pro", false, PROMPT_VERSION, true⟩

def cxSt1 : FlowStore := ⟨[(cxRabanutPath, freshRecord cxFlowInput "שלום" "m-pro" true)], []⟩

def cxOut2 : FlowOutput := ⟨"שלום", "m-pro", true, PROMPT_VERSION, true⟩

/-- **C1**, counterexample to the unamended claim: with a provider whose
successful responses are empty strings, a full-miss first call succeeds,
yet the identical second call reports `cacheHit = false` (the stored
record has empty `explanationText` and is never treated as a hit). -/
theorem C1_explanation_cache_counterexample :
    (talmudAIChatbotExplanationFlow cxEmptyOracle (fun s => s) cxFlowConfig cxFlowInput
        ⟨[], []⟩ =
      .ok (⟨"", "m-pro", false, PROMPT_VERSION, false⟩,
        ⟨[(cxRabanutPath, freshRecord cxFlowInput "" "m-pro" false)], []⟩)) ∧
    (talmudAIChatbotExplanationFlow cxEmptyOracle (fun s => s) cxFlowConfig cxFlowInput
        ⟨[(cxRabanutPath, freshRecord cxFlowInput "" "m-pro" false)], []⟩).map
      (fun r => r.1.cacheHit) = .ok false := by
  exact ⟨by decide, by decide⟩

/-- **C1**, witness: a concrete run of the amended theorem — a first call
on the empty store generates `"שלום"`, and the second call serves it from
the structured cache. -/
theorem C1_explanation_cache_idempotent_witness :
    (talmudAIChatbotExplanationFlow cxFlowOracle (fun s => s) cxFlowConfig cxFlowInput
        ⟨[], []⟩ = .ok (cxOut1, cxSt1)) ∧
    cxOut1.explanation ≠ "" ∧
    (talmudAIChatbotExplanationFlow cxFlowOracle (fun s => s) cxFlowConfig cxFlowInput
        cxSt1 = .ok (cxOut2, cxSt1)) ∧
    (cxOut2.explanation = cxOut1.explanation ∧ cxOut2.cacheHit = true ∧
      (∀ (st : FlowStore) (out : FlowOutput),
        rabanutHitOutput st cxFlowInput = some out →
        ∃ data, storeGet st.rabanut (rabanutDocPath cxFlowInput) = some data ∧
          data.rawHash = cxFlowInput.rawHash ∧ data.promptVersion = PROMPT_VERSION ∧
          out.explanation = data.explanationText)) :=
  ⟨by decide, by decide, by decide,
    C1_explanation_cache_idempotent cxFlowOracle (fun s => s) cxFlowConfig cxFlowInput
      ⟨[], []⟩ cxOut1 cxSt1 cxOut2 cxSt1 (by decide) (by decide) (by decide)⟩

/-- **C4**, counterexample: in the current (structured-cache) flow a
full-miss generation writes **no** legacy key at all — the first call on
the empty store misses (`cacheHit = false`) and leaves the legacy
collection empty. -/
theorem C4_legacy_writeback_counterexample :
    (talmudAIChatbotExplanationFlow cxFlowOracle (fun s => s) cxFlowConfig cxFlowInput
        ⟨[], []⟩).map (fun r => (r.1.cacheHit, r.2.legacy)) = .ok (false, []) := by
  decide

/-- **C4** (amended).  The double legacy write-back holds only for the
legacy-era version of the flow: there, after every full-miss generation
the result is stored under the legacy key of the model actually used and
under the legacy key of the originally preferred model (the two coincide
when the models do).  The current structured-cache version writes no
legacy key on a full miss: it leaves the legacy collection untouched and
persists the result only at the structured `rabanout` path. -/
theorem C4_legacy_writeback_amended
    (oracle : String → String → Nat → LLMOutcome) (sha : String → String)
    (config : ModelConfig) (input : FlowInput) :
    (∀ store out st',
        talmudAIChatbotExplanationFlowLegacyEra oracle sha config input store =
          .ok (out, st') →
        out.cacheHit = false →
        storeGet st'.legacy (generateLegacyCacheKey sha input out.modelUsed) =
            some (legacyWrittenRecord input out.explanation out.modelUsed out.validated) ∧
          storeGet st'.legacy
              (generateLegacyCacheKey sha input (jsOr input.modelName config.primary)) =
            some (legacyWrittenRecord input out.explanation out.modelUsed out.validated)) ∧
    (∀ store out st',
        talmudAIChatbotExplanationFlow oracle sha config input store = .ok (out, st') →
        out.cacheHit = false →
        st'.legacy = store.legacy ∧
          storeGet st'.rabanut (rabanutDocPath input) =
            some (freshRecord input out.explanation out.modelUsed out.validated)) := by
  constructor
  · intro store out st' hrun hmiss
    cases hl : legacyLoop sha input store.legacy
        (getModelCandidates config (some (jsOr input.modelName config.primary))) with
    | some data =>
      rw [flowLegacyEra_hit oracle sha config input store data hl] at hrun
      simp only [Except.ok.injEq, Prod.mk.injEq] at hrun
      rw [← hrun.1] at hmiss
      exact absurd hmiss (by simp [legacyHitOutput])
    | none =>
      cases hg : generatePhase oracle config input (jsOr input.modelName config.primary)
        with
      | error e =>
        unfold talmudAIChatbotExplanationFlowLegacyEra at hrun
        dsimp only at hrun
        rw [hl] at hrun
        dsimp only at hrun
        rw [hg] at hrun
        exact absurd hrun (by simp)
      | ok trip =>
        obtain ⟨ex, mu, va⟩ := trip
        rw [flowLegacyEra_miss oracle sha config input store ex mu va hl hg] at hrun
        simp only [Except.ok.injEq, Prod.mk.injEq] at hrun
        obtain ⟨ho, hs⟩ := hrun
        subst ho; subst hs
        dsimp only
        by_cases hd : mu ≠ jsOr input.modelName config.primary
        · rw [if_pos hd]
          by_cases hkeq : generateLegacyCacheKey sha input mu =
              generateLegacyCacheKey sha input (jsOr input.modelName config.primary)
          · rw [show dedupFirst [generateLegacyCacheKey sha input mu,
                generateLegacyCacheKey sha input (jsOr input.modelName config.primary)] =
                  [generateLegacyCacheKey sha input mu] by
              simp [dedupFirst, dedupFirstAux, hkeq]]
            rw [List.foldl_cons, List.foldl_nil]
            constructor
            · exact storeGet_set_self _ _ _
            · rw [← hkeq]
              exact storeGet_set_self _ _ _
          · rw [show dedupFirst [generateLegacyCacheKey sha input mu,
                generateLegacyCacheKey sha input (jsOr input.modelName config.primary)] =
                  [generateLegacyCacheKey sha input mu,
                    generateLegacyCacheKey sha input (jsOr input.modelName config.primary)]
                by
              simp [dedupFirst, dedupFirstAux]
              exact fun hh => hkeq hh.symm]
            rw [List.foldl_cons, List.foldl_cons, List.foldl_nil]
            constructor
            · rw [storeGet_set_other _ _ _ _ hkeq]
              exact storeGet_set_self _ _ _
            · exact storeGet_set_self _ _ _
        · rw [if_neg hd]
          rw [not_not] at hd
          rw [List.foldl_cons, List.foldl_nil]
          constructor
          · exact storeGet_set_self _ _ _
          · rw [← hd]
            exact storeGet_set_self _ _ _
  · intro store out st' hrun hmiss
    cases hr : rabanutHitOutput store input with
    | some o =>
      rw [flow_rabanut_hit oracle sha config input store o hr] at hrun
      simp only [Except.ok.injEq, Prod.mk.injEq] at hrun
      obtain ⟨data, hget, hx, hh, hp, hout⟩ := rabanutHitOutput_some store input o hr
      rw [← hrun.1, hout] at hmiss
      exact absurd hmiss (by simp)
    | none =>
      cases hl : legacyLoop sha input store.legacy
          (getModelCandidates config (some (jsOr input.modelName config.primary))) with
      | some data =>
        rw [flow_legacy_hit oracle sha config input store data hr hl] at hrun
        simp only [Except.ok.injEq, Prod.mk.injEq] at hrun
        rw [← hrun.1] at hmiss
        exact absurd hmiss (by simp [legacyHitOutput])
      | none =>
        cases hg : generatePhase oracle config input (jsOr input.modelName config.primary)
          with
        | error e =>
          unfold talmudAIChatbotExplanationFlow at hrun
          rw [hr] at hrun
          dsimp only at hrun
          rw [hl] at hrun
          dsimp only at hrun
          rw [hg] at hrun
          exact absurd hrun (by simp)
        | ok trip =>
          obtain ⟨ex, mu, va⟩ := trip
          rw [flow_full_miss oracle sha config input store ex mu va hr hl hg] at hrun
          simp only [Except.ok.injEq, Prod.mk.injEq] at hrun
          obtain ⟨ho, hs⟩ := hrun
          subst ho; subst hs
          exact ⟨rfl, storeGet_set_self _ _ _⟩

/-! ## Canonical study-guide persistence
(`src/app/actions/study-guide.ts`)

`saveCanonicalGuide` issues one Firestore batch; the batch is embedded
as the ordered list of operations it commits.  The prior contents of the
`chunks` sub-collection (an external read) are passed as the id list
`existingChunkIds`. -/

def SOURCE_PROCESSING_ORDER : List String := ["tur", "beit_yosef", "shulchan_arukh"]

def CANONICAL_CACHE_VERSION : String := "v1"

structure GuideChunk where
  id : String
  orderIndex : Nat
  rawText : String
  explanation : String
  rawHash : String
  sourceRef : Option String
  sourcePath : Option String
  modelUsed : Option String
  validated : Option Bool
  deriving Repr, DecidableEq

structure SourceResult where
  sourceKey : String
  hebrewLabel : String
  tref : String
  chunks : List GuideChunk
  deriving Repr, DecidableEq

structure GuideData where
  tref : String
  summary : String
  sourceResults : List SourceResult
  sources : List String
  summaryModel : Option String
  validated : Option Bool
  deriving Repr, DecidableEq

/-- The result of `summarizeTalmudStudyGuide`. -/
structure SummaryResult where
  summary : String
  modelUsed : String
  validated : Bool
  deriving Repr, DecidableEq

structure MultiSourceRequest where
  sectionName : String
  siman : Nat
  seif : Option String
  sources : List String
  deriving Repr, DecidableEq

/-- JS `x || null` for an optional string (`""` and absence give null). -/
def jsOrNull (o : Option String) : Option String := if o.getD "" ≠ "" then o else none

/-- `sortSources` (lines 74-76); `localeCompare` is modelled as
code-point order. -/
def sortSources (sources : List String) : List String :=
  sources.mergeSort (fun a b => a ≤ b)

/-- JS `Array.prototype.indexOf` (−1 when absent). -/
def jsIndexOf (l : List String) (x : String) : Int :=
  match l.findIdx? (· == x) with
  | some i => (i : Int)
  | none => -1

/-- `finalGuideData` (lines 887-896): the guide data returned by a
successful generation; `validated` is the conjunction of the summary
validation and every chunk's validation across all sources. -/
def finalGuideData (primaryTref : String) (summaryResult : SummaryResult)
    (sourceResults : List SourceResult) (sources : List String) : GuideData :=
  ⟨primaryTref, summaryResult.summary, sourceResults, sources,
    some summaryResult.modelUsed,
    some (summaryResult.validated &&
      sourceResults.all (fun sr => sr.chunks.all (fun c => c.validated.getD false)))⟩

/-- The canonical document written on promotion to `ready`
(lines 294-308). -/
structure CanonicalReadyRecord where
  status : String
  sectionName : String
  siman : Nat
  seif : Option String
  sources : List String
  version : String
  tref : String
  summaryText : String
  summaryModel : Option String
  validated : Bool
  chunkCount : Nat
  deriving Repr, DecidableEq

/-- A chunk sub-record written on promotion (lines 313-328). -/
structure ChunkRecord where
  id : String
  sourceKey : String
  sourceOrder : Int
  hebrewLabel : String
  tref : String
  orderIndex : Nat
  rawText : String
  explanationText : String
  rawHash : String
  sourceRef : Option String
  sourcePath : Option String
  modelUsed : Option String
  validated : Bool
  deriving Repr, DecidableEq

inductive BatchOp where
  | deleteChunk (id : String)
  | setCanonical (key : String) (rec : CanonicalReadyRecord)
  | setChunk (id : String) (rec : ChunkRecord)
  deriving Repr, DecidableEq

def chunkRecordOf (sr : SourceResult) (c : GuideChunk) : ChunkRecord :=
  ⟨c.id, sr.sourceKey, jsIndexOf SOURCE_PROCESSING_ORDER sr.sourceKey, sr.hebrewLabel,
    sr.tref, c.orderIndex, c.rawText, c.explanation, c.rawHash, jsOrNull c.sourceRef,
    jsOrNull c.sourcePath, jsOrNull c.modelUsed, c.validated.getD false⟩

/-- `saveCanonicalGuide` (lines 278-333): one batch deleting every prior
chunk document, setting the canonical record to `ready`
(`validated: guideData.validated ?? false`), and writing every chunk
record, committed once. -/
def saveCanonicalGuide (cacheKey : String) (request : MultiSourceRequest)
    (guideData : GuideData) (existingChunkIds : List String) : List BatchOp :=
  let totalChunks := (guideData.sourceResults.map (fun s => s.chunks.length)).sum
  existingChunkIds.map BatchOp.deleteChunk ++
    [BatchOp.setCanonical cacheKey
      ⟨"ready", request.sectionName, request.siman, jsOrNull request.seif,
        sortSources request.sources, CANONICAL_CACHE_VERSION, guideData.tref,
        guideData.summary, jsOrNull guideData.summaryModel,
        guideData.validated.getD false, totalChunks⟩] ++
    guideData.sourceResults.flatMap (fun sr =>
      sr.chunks.map (fun c => BatchOp.setChunk c.id (chunkRecordOf sr c)))

theorem getD_false_eq_true (o : Option Bool) : (o.getD false = true) ↔ o = some true := by
  cases o <;> simp

/-- The conjunction computed by `finalGuideData`. -/
theorem validated_conj (s : Bool) (srs : List SourceResult) :
    ((s && srs.all (fun sr => sr.chunks.all (fun c => c.validated.getD false))) = true ↔
      (s = true ∧ ∀ sr ∈ srs, ∀ c ∈ sr.chunks, c.validated = some true)) := by
  rw [Bool.and_eq_true]
  simp only [List.all_eq_true, getD_false_eq_true]

/-- **C8**.  Canonical-record validation conjunction: for a successful
generation, the `validated` flag of the returned guide data is `true`
iff the summary validation is true and every processed chunk of every
included source has `validated = true`; and the ready promotion is one
batch whose operations are, in order, the deletions of all prior chunk
sub-records, the canonical `ready` set (carrying the same `validated`
conjunction), and the new chunk records. -/
theorem C8_canonical_validated_conjunction
    (primaryTref : String) (summaryResult : SummaryResult)
    (sourceResults : List SourceResult) (sources : List String)
    (cacheKey : String) (request : MultiSourceRequest)
    (existingChunkIds : List String) :
    ((finalGuideData primaryTref summaryResult sourceResults sources).validated =
        some true ↔
      (summaryResult.validated = true ∧
        ∀ sr ∈ sourceResults, ∀ c ∈ sr.chunks, c.validated = some true)) ∧
    (∃ rec : CanonicalReadyRecord,
      saveCanonicalGuide cacheKey request
          (finalGuideData primaryTref summaryResult sourceResults sources)
          existingChunkIds =
        existingChunkIds.map BatchOp.deleteChunk ++
          [BatchOp.setCanonical cacheKey rec] ++
          sourceResults.flatMap (fun sr =>
            sr.chunks.map (fun c => BatchOp.setChunk c.id (chunkRecordOf sr c))) ∧
      rec.status = "ready" ∧
      (rec.validated = true ↔
        (summaryResult.validated = true ∧
          ∀ sr ∈ sourceResults, ∀ c ∈ sr.chunks, c.validated = some true))) := by
  constructor
  · rw [show (finalGuideData primaryTref summaryResult sourceResults sources).validated =
        some (summaryResult.validated &&
          sourceResults.all (fun sr => sr.chunks.all (fun c => c.validated.getD false)))
      from rfl]
    rw [Option.some_inj]
    exact validated_conj summaryResult.validated sourceResults
  · refine ⟨⟨"ready", request.sectionName, request.siman, jsOrNull request.seif,
      sortSources request.sources, CANONICAL_CACHE_VERSION,
      (finalGuideData primaryTref summaryResult sourceResults sources).tref,
      (finalGuideData primaryTref summaryResult sourceResults sources).summary,
      jsOrNull (finalGuideData primaryTref summaryResult sourceResults sources).summaryModel,
      (finalGuideData primaryTref summaryResult sourceResults sources).validated.getD false,
      ((finalGuideData primaryTref summaryResult sourceResults
        sources).sourceResults.map (fun s => s.chunks.length)).sum⟩, by rfl, rfl, ?_⟩
    rw [show ((finalGuideData primaryTref summaryResult sourceResults
        sources).validated.getD false) =
      (summaryResult.validated &&
        sourceResults.all (fun sr => sr.chunks.all (fun c => c.validated.getD false)))
      from rfl]
    exact validated_conj summaryResult.validated sourceResults

/-! ## Hebrew numerals (`part_007` lines 734-805)

`Number(s)` is embedded restricted to the decimal-natural grammar: that
restriction is exact on every string reachable in the round trip below,
since `numberToHebrew` output always contains a Hebrew letter or a
quote mark (`NaN` in JS, `none` here). -/

def geresh : String := String.mk [Char.ofNat 39]

def gershayim : String := String.mk [Char.ofNat 34]

/-- `HEBREW_CHAR_VALUES[c] || 0` (`part_007` lines 721-727). -/
def HEBREW_CHAR_VALUES (c : Char) : Nat :=
  if c = 'א' then 1 else if c = 'ב' then 2 else if c = 'ג' then 3
  else if c = 'ד' then 4 else if c = 'ה' then 5 else if c = 'ו' then 6
  else if c = 'ז' then 7 else if c = 'ח' then 8 else if c = 'ט' then 9
  else if c = 'י' then 10 else if c = 'כ' then 20 else if c = 'ך' then 20
  else if c = 'ל' then 30 else if c = 'מ' then 40 else if c = 'ם' then 40
  else if c = 'נ' then 50 else if c = 'ן' then 50 else if c = 'ס' then 60
  else if c = 'ע' then 70 else if c = 'פ' then 80 else if c = 'ף' then 80
  else if c = 'צ' then 90 else if c = 'ץ' then 90 else if c = 'ק' then 100
  else if c = 'ר' then 200 else if c = 'ש' then 300 else if c = 'ת' then 400
  else 0

/-- The characters stripped by `/['"״׳\-–]/g`. -/
def isGereshLike (c : Char) : Bool :=
  c = Char.ofNat 39 ∨ c = Char.ofNat 34 ∨ c = '״' ∨ c = '׳' ∨ c = '-' ∨ c = '–'

/-- JS `Number(s)` on the decimal-natural grammar (see section note). -/
def jsNumberNat (s : String) : Option Nat :=
  if s.toList ≠ [] ∧ s.toList.all Char.isDigit then
    some (s.toList.foldl (fun acc c => acc * 10 + (c.toNat - 48)) 0)
  else none

/-- `hebrewToNumber` (`part_007` lines 734-757). -/
def hebrewToNumber (hebrew : String) : Nat :=
  let trimmed := jsTrim hebrew
  match jsNumberNat trimmed with
  | some n => n
  | none =>
    let clean := String.mk (trimmed.toList.filter (fun c => ¬ isGereshLike c))
    if clean = "" then 0
    else if clean = "טו" then 15
    else if clean = "טז" then 16
    else (clean.toList.map HEBREW_CHAR_VALUES).sum

/-- `numberToHebrew` (`part_007` lines 759-805), with a fuel parameter
standing for the call depth (the self-recursion of the 15/16 special
cases is at most one level deep, so fuel 2 realises the function
exactly). -/
def numberToHebrewGo : Nat → Nat → String
  | 0, num => toString num
  | fuel + 1, num =>
    if num = 0 ∨ 1000 < num then toString num
    else if num % 100 = 15 then numberToHebrewGo fuel (num - 15) ++ "טו"
    else if num % 100 = 16 then numberToHebrewGo fuel (num - 16) ++ "טז"
    else
      let units := ["", "א", "ב", "ג", "ד", "ה", "ו", "ז", "ח", "ט"]
      let tens := ["", "י", "כ", "ל", "מ", "נ", "ס", "ע", "פ", "צ"]
      let hundreds := ["", "ק", "ר", "ש", "ת"]
      let r1 := if 400 ≤ num then String.join (List.replicate (num / 400) "ת") else ""
      let n1 := if 400 ≤ num then num - (num / 400) * 400 else num
      let r2 := r1 ++ (if 100 ≤ n1 then hundreds.getD (n1 / 100) "" else "")
      let n2 := if 100 ≤ n1 then n1 % 100 else n1
      let r3 := r2 ++ (if 10 ≤ n2 then tens.getD (n2 / 10) "" else "")
      let n3 := if 10 ≤ n2 then n2 % 10 else n2
      let result := r3 ++ (if 0 < n3 then units.getD n3 "" else "")
      if result.length = 1 then result ++ geresh
      else if 1 < result.length then
        String.mk result.toList.dropLast ++ gershayim ++
          String.mk (result.toList.drop (result.toList.length - 1))
      else result

def numberToHebrew (num : Nat) : String := numberToHebrewGo 2 num

/-! The round trip checked on each century separately (the kernel
evaluates each 100-element band in one `decide`). -/
set_option maxRecDepth 20000 in
theorem hebrewRoundtripChunk0 :
    ∀ n ∈ List.range' 1 100, hebrewToNumber (numberToHebrew n) = n := by decide

set_option maxRecDepth 20000 in
theorem hebrewRoundtripChunk1 :
    ∀ n ∈ List.range' 101 100, hebrewToNumber (numberToHebrew n) = n := by decide

set_option maxRecDepth 20000 in
theorem hebrewRoundtripChunk2 :
    ∀ n ∈ List.range' 201 100, hebrewToNumber (numberToHebrew n) = n := by decide

set_option maxRecDepth 20000 in
theorem hebrewRoundtripChunk3 :
    ∀ n ∈ List.range' 301 100, hebrewToNumber (numberToHebrew n) = n := by decide

set_option maxRecDepth 20000 in
theorem hebrewRoundtripChunk4 :
    ∀ n ∈ List.range' 401 100, hebrewToNumber (numberToHebrew n) = n := by decide

set_option maxRecDepth 20000 in
theorem hebrewRoundtripChunk5 :
    ∀ n ∈ List.range' 501 100, hebrewToNumber (numberToHebrew n) = n := by decide

set_option maxRecDepth 20000 in
theorem hebrewRoundtripChunk6 :
    ∀ n ∈ List.range' 601 100, hebrewToNumber (numberToHebrew n) = n := by decide

set_option maxRecDepth 20000 in
theorem hebrewRoundtripChunk7 :
    ∀ n ∈ List.range' 701 100, hebrewToNumber (numberToHebrew n) = n := by decide

set_option maxRecDepth 20000 in
theorem hebrewRoundtripChunk8 :
    ∀ n ∈ List.range' 801 100, hebrewToNumber (numberToHebrew n) = n := by decide

set_option maxRecDepth 20000 in
theorem hebrewRoundtripChunk9 :
    ∀ n ∈ List.range' 901 100, hebrewToNumber (numberToHebrew n) = n := by decide

/-- **C10**.  Hebrew numeral round trip: for every `n` with
`1 ≤ n ≤ 1000`, `hebrewToNumber (numberToHebrew n) = n`, despite the
geresh/gershayim quote marks inserted by `numberToHebrew` and the
`טו`/`טז` special cases (whose `n % 100 ∈ {15, 16}` outputs such as
`"0טו"` still sum correctly: the leading `"0"` defeats the numeric-string
fast path and contributes `0` to the letter sum). -/
theorem C10_hebrew_numeral_roundtrip (n : Nat) (h1 : 1 ≤ n) (h2 : n ≤ 1000) :
    hebrewToNumber (numberToHebrew n) = n := by
  have hm : ∀ k : Nat, k < 10 → 100 * k + 1 ≤ n → n < 100 * k + 101 →
      hebrewToNumber (numberToHebrew n) = n := by
    intro k hk hlo hhi
    interval_cases k
    · exact hebrewRoundtripChunk0 n (List.mem_range'_1.mpr ⟨hlo, by omega⟩)
    · exact hebrewRoundtripChunk1 n (List.mem_range'_1.mpr ⟨hlo, by omega⟩)
    · exact hebrewRoundtripChunk2 n (List.mem_range'_1.mpr ⟨hlo, by omega⟩)
    · exact hebrewRoundtripChunk3 n (List.mem_range'_1.mpr ⟨hlo, by omega⟩)
    · exact hebrewRoundtripChunk4 n (List.mem_range'_1.mpr ⟨hlo, by omega⟩)
    · exact hebrewRoundtripChunk5 n (List.mem_range'_1.mpr ⟨hlo, by omega⟩)
    · exact hebrewRoundtripChunk6 n (List.mem_range'_1.mpr ⟨hlo, by omega⟩)
    · exact hebrewRoundtripChunk7 n (List.mem_range'_1.mpr ⟨hlo, by omega⟩)
    · exact hebrewRoundtripChunk8 n (List.mem_range'_1.mpr ⟨hlo, by omega⟩)
    · exact hebrewRoundtripChunk9 n (List.mem_range'_1.mpr ⟨hlo, by omega⟩)
  exact hm ((n - 1) / 100) (by omega) (by omega) (by omega)

/-- **C10**, witness: the round trip at `n = 115`, whose numeral
`ק'טו` exercises both a geresh and the `טו` special case. -/
theorem C10_hebrew_numeral_roundtrip_witness :
    1 ≤ 115 ∧ 115 ≤ 1000 ∧ hebrewToNumber (numberToHebrew 115) = 115 :=
  ⟨by decide, by decide,
    C10_hebrew_numeral_roundtrip 115 (by decide) (by decide)⟩
